import Mathlib

/-!
Verification development for the data-visor inspection and triage service.

The definitions below are shallow embeddings of the Python source under
src/app; each definition carries a comment naming the function and lines
it embeds.  Numeric values are modelled by exact rationals, database
tables by lists of rows, Python dicts by association lists in insertion
order, and fallible handlers by Except / explicit outcome types.
-/

/-- Stable insertion respecting a boolean comparator: x is placed after
every element y with le y x, which matches the stability guarantee of
the Python list sort used throughout the source. -/
def insertLe {α : Type} (le : α → α → Bool) (x : α) : List α → List α
  | [] => [x]
  | y :: ys => if le y x then y :: insertLe le x ys else x :: y :: ys

/-- Stable sort by a boolean comparator (model of the stable Python
list.sort and sorted builtins). -/
def sortLe {α : Type} (le : α → α → Bool) (l : List α) : List α :=
  l.foldl (fun acc x => insertLe le x acc) []

/-- One step of the running-argmax fold: state is (best index, best
value, next index); a strictly greater value moves the best index, so the
first maximising index is kept, as numpy argmax does. -/
def argmaxStep (st : ℕ × ℚ × ℕ) (v : ℚ) : ℕ × ℚ × ℕ :=
  if st.2.1 < v then (st.2.2, v, st.2.2 + 1) else (st.1, st.2.1, st.2.2 + 1)

/-- First index of the maximum of a rational list, 0 on the empty list;
model of numpy argmax, which returns the first maximising index. -/
def argmaxQ (l : List ℚ) : ℕ :=
  match l with
  | [] => 0
  | x :: xs => (xs.foldl argmaxStep (0, x, 1)).1

/-- Worker for list_distinct: keeps the first occurrence of each element,
dropping later duplicates; seen accumulates the elements already kept. -/
def listDistinctGo (seen : List String) : List String → List String
  | [] => []
  | x :: xs =>
    if x ∈ seen then listDistinctGo seen xs
    else x :: listDistinctGo (x :: seen) xs

/-- Model of the DuckDB list_distinct primitive used by the samples and
triage routers: removes duplicate elements, keeping first occurrences. -/
def list_distinct (l : List String) : List String := listDistinctGo [] l

/-- Model of the DuckDB list_append primitive. -/
def list_append (l : List String) (x : String) : List String := l ++ [x]

/-- Model of the DuckDB list_filter primitive. -/
def list_filter (p : String → Bool) (l : List String) : List String := l.filter p

-- Lemmas about list_distinct shared by the tagging and triage claims.

theorem mem_listDistinctGo {seen l : List String} {a : String} :
    a ∈ listDistinctGo seen l ↔ a ∈ l ∧ a ∉ seen := by
  induction l generalizing seen with
  | nil => simp [listDistinctGo]
  | cons x xs ih =>
    by_cases hx : x ∈ seen
    · simp only [listDistinctGo, if_pos hx, ih, List.mem_cons]
      constructor
      · rintro ⟨h1, h2⟩; exact ⟨Or.inr h1, h2⟩
      · rintro ⟨h1 | h1, h2⟩
        · exact absurd (h1 ▸ hx) h2
        · exact ⟨h1, h2⟩
    · simp only [listDistinctGo, if_neg hx, List.mem_cons, ih]
      constructor
      · rintro (rfl | ⟨h1, h2⟩)
        · exact ⟨Or.inl rfl, hx⟩
        · exact ⟨Or.inr h1, fun hc => h2 (Or.inr hc)⟩
      · rintro ⟨rfl | h1, h2⟩
        · exact Or.inl rfl
        · by_cases hax : a = x
          · exact Or.inl hax
          · exact Or.inr ⟨h1, fun hc => hc.elim hax h2⟩

theorem mem_list_distinct {l : List String} {a : String} :
    a ∈ list_distinct l ↔ a ∈ l := by
  simp [list_distinct, mem_listDistinctGo]

theorem nodup_listDistinctGo (seen l : List String) :
    (listDistinctGo seen l).Nodup := by
  induction l generalizing seen with
  | nil => simp [listDistinctGo]
  | cons x xs ih =>
    by_cases hx : x ∈ seen
    · simpa [listDistinctGo, if_pos hx] using ih seen
    · simp only [listDistinctGo, if_neg hx, List.nodup_cons]
      refine ⟨?_, ih (x :: seen)⟩
      intro hc
      exact (mem_listDistinctGo.mp hc).2 (List.mem_cons_self x seen)

theorem nodup_list_distinct (l : List String) : (list_distinct l).Nodup :=
  nodup_listDistinctGo [] l

theorem listDistinctGo_eq_self {seen l : List String} (hn : l.Nodup)
    (hd : ∀ a ∈ l, a ∉ seen) : listDistinctGo seen l = l := by
  induction l generalizing seen with
  | nil => simp [listDistinctGo]
  | cons x xs ih =>
    have hx : x ∉ seen := hd x (List.mem_cons_self x xs)
    simp only [listDistinctGo, if_neg hx]
    congr 1
    refine ih (List.Nodup.of_cons hn) ?_
    intro a ha hc
    rcases List.mem_cons.mp hc with h | h
    · exact (List.nodup_cons.mp hn).1 (h ▸ ha)
    · exact hd a (List.mem_cons_of_mem _ ha) h

theorem list_distinct_eq_self {l : List String} (hn : l.Nodup) :
    list_distinct l = l :=
  listDistinctGo_eq_self hn (by simp)

theorem listDistinctGo_append {seen l : List String} {a : String} :
    listDistinctGo seen (l ++ [a]) =
      (if a ∈ seen ∨ a ∈ l then listDistinctGo seen l
       else listDistinctGo seen l ++ [a]) := by
  induction l generalizing seen with
  | nil => by_cases h : a ∈ seen <;> simp [listDistinctGo, h]
  | cons x xs ih =>
    by_cases hx : x ∈ seen
    · simp only [List.cons_append, listDistinctGo, if_pos hx, List.append_eq]
      rw [ih]
      by_cases hc : a ∈ seen ∨ a ∈ xs
      · rw [if_pos hc, if_pos]
        rcases hc with h | h
        · exact Or.inl h
        · exact Or.inr (List.mem_cons_of_mem _ h)
      · rw [if_neg hc, if_neg]
        intro h
        rcases h with h | h
        · exact hc (Or.inl h)
        · rcases List.mem_cons.mp h with h' | h'
          · exact hc (Or.inl (h' ▸ hx))
          · exact hc (Or.inr h')
    · simp only [List.cons_append, listDistinctGo, if_neg hx, List.append_eq]
      rw [ih]
      by_cases hc : a ∈ x :: seen ∨ a ∈ xs
      · rw [if_pos hc, if_pos]
        rcases hc with h | h
        · rcases List.mem_cons.mp h with h' | h'
          · exact Or.inr (List.mem_cons.mpr (Or.inl h'))
          · exact Or.inl h'
        · exact Or.inr (List.mem_cons_of_mem _ h)
      · rw [if_neg hc, if_neg]
        · intro h
          rcases h with h | h
          · exact hc (Or.inl (List.mem_cons_of_mem _ h))
          · rcases List.mem_cons.mp h with h' | h'
            · exact hc (Or.inl (h' ▸ List.mem_cons_self x seen))
            · exact hc (Or.inr h')

theorem list_distinct_append_mem {l : List String} {a : String} (h : a ∈ l) :
    list_distinct (l ++ [a]) = list_distinct l := by
  simp [list_distinct, listDistinctGo_append, h]

theorem list_distinct_append_not_mem {l : List String} {a : String}
    (h : a ∉ l) : list_distinct (l ++ [a]) = list_distinct l ++ [a] := by
  simp [list_distinct, listDistinctGo_append, h]

-- ---------------------------------------------------------------------------
-- IoU computation (src/app/services/evaluation.py, _compute_iou_matrix,
-- lines 318-333).  The source computes a full matrix; entry (i, j) is the
-- pairwise value embedded here as iou.
-- ---------------------------------------------------------------------------

/-- Axis-aligned box in xyxy form, as consumed by _compute_iou_matrix. -/
@[ext]
structure Box where
  x1 : ℚ
  y1 : ℚ
  x2 : ℚ
  y2 : ℚ
deriving DecidableEq, Repr, Inhabited

/-- Width of the intersection: max(0, min(a.x2, b.x2) - max(a.x1, b.x1)),
from evaluation.py lines 322-327. -/
def interW (a b : Box) : ℚ := max 0 (min a.x2 b.x2 - max a.x1 b.x1)

/-- Height of the intersection, evaluation.py lines 323-327. -/
def interH (a b : Box) : ℚ := max 0 (min a.y2 b.y2 - max a.y1 b.y1)

/-- Intersection area, evaluation.py line 327. -/
def interArea (a b : Box) : ℚ := interW a b * interH a b

/-- Box area (x2 - x1) * (y2 - y1), evaluation.py lines 329-330. -/
def boxArea (a : Box) : ℚ := (a.x2 - a.x1) * (a.y2 - a.y1)

/-- Union area, evaluation.py line 332. -/
def unionArea (a b : Box) : ℚ := boxArea a + boxArea b - interArea a b

/-- IoU with the zero-division guard np.where(union > 0, inter / union, 0),
evaluation.py line 333. -/
def iou (a b : Box) : ℚ :=
  if 0 < unionArea a b then interArea a b / unionArea a b else 0

/-- A well-formed xyxy box: x2 is at least x1 and y2 at least y1. -/
def BoxWF (a : Box) : Prop := a.x1 ≤ a.x2 ∧ a.y1 ≤ a.y2

instance (a : Box) : Decidable (BoxWF a) := by unfold BoxWF; infer_instance

theorem interW_nonneg (a b : Box) : 0 ≤ interW a b := le_max_left 0 _

theorem interH_nonneg (a b : Box) : 0 ≤ interH a b := le_max_left 0 _

theorem interArea_nonneg (a b : Box) : 0 ≤ interArea a b :=
  mul_nonneg (interW_nonneg a b) (interH_nonneg a b)

theorem interW_le_left {a : Box} (b : Box) (h : a.x1 ≤ a.x2) :
    interW a b ≤ a.x2 - a.x1 := by
  have h1 := min_le_left a.x2 b.x2
  have h2 := le_max_left a.x1 b.x1
  exact max_le (by linarith) (by linarith)

theorem interH_le_left {a : Box} (b : Box) (h : a.y1 ≤ a.y2) :
    interH a b ≤ a.y2 - a.y1 := by
  have h1 := min_le_left a.y2 b.y2
  have h2 := le_max_left a.y1 b.y1
  exact max_le (by linarith) (by linarith)

theorem interW_comm (a b : Box) : interW a b = interW b a := by
  simp [interW, min_comm, max_comm]

theorem interH_comm (a b : Box) : interH a b = interH b a := by
  simp [interH, min_comm, max_comm]

theorem interArea_comm (a b : Box) : interArea a b = interArea b a := by
  rw [interArea, interArea, interW_comm, interH_comm]

theorem interArea_le_left {a : Box} (b : Box) (ha : BoxWF a) :
    interArea a b ≤ boxArea a := by
  exact mul_le_mul (interW_le_left b ha.1) (interH_le_left b ha.2)
    (interH_nonneg a b) (by have := ha.1; linarith)

theorem interArea_le_right (a : Box) {b : Box} (hb : BoxWF b) :
    interArea a b ≤ boxArea b := by
  rw [interArea_comm]; exact interArea_le_left a hb

theorem interArea_le_union {a b : Box} (ha : BoxWF a) (hb : BoxWF b) :
    interArea a b ≤ unionArea a b := by
  have h1 := interArea_le_left b ha
  have h2 := interArea_le_right a hb
  unfold unionArea; linarith

theorem unionArea_comm (a b : Box) : unionArea a b = unionArea b a := by
  rw [unionArea, unionArea, interArea_comm]; ring

theorem iou_comm (a b : Box) : iou a b = iou b a := by
  rw [iou, iou, unionArea_comm, interArea_comm]

theorem iou_nonneg (a b : Box) : 0 ≤ iou a b := by
  rw [iou]
  split
  · exact div_nonneg (interArea_nonneg a b) (le_of_lt (by assumption))
  · exact le_refl 0

theorem iou_le_one {a b : Box} (ha : BoxWF a) (hb : BoxWF b) :
    iou a b ≤ 1 := by
  rw [iou]
  split
  · exact (div_le_one (by assumption)).mpr (interArea_le_union ha hb)
  · exact zero_le_one

theorem iou_self {a : Box} (ha : BoxWF a) (hpos : 0 < boxArea a) :
    iou a a = 1 := by
  have hw : interW a a = a.x2 - a.x1 := by
    rw [interW, min_self, max_self]
    exact max_eq_right (by have := ha.1; linarith)
  have hh : interH a a = a.y2 - a.y1 := by
    rw [interH, min_self, max_self]
    exact max_eq_right (by have := ha.2; linarith)
  have hi : interArea a a = boxArea a := by rw [interArea, hw, hh, boxArea]
  have hu : unionArea a a = boxArea a := by rw [unionArea, hi]; ring
  rw [iou, hu, hi, if_pos hpos]
  exact div_self (ne_of_gt hpos)

theorem iou_eq_one_iff {a b : Box} (ha : BoxWF a) (hb : BoxWF b) :
    iou a b = 1 ↔ a = b ∧ 0 < boxArea a := by
  constructor
  · intro h
    by_cases hu : 0 < unionArea a b
    · rw [iou, if_pos hu] at h
      have hiu : interArea a b = unionArea a b :=
        (div_eq_one_iff_eq (ne_of_gt hu)).mp h
      have hA := interArea_le_left b ha
      have hB := interArea_le_right a hb
      have hiA : interArea a b = boxArea a := by
        rw [unionArea] at hiu; linarith
      have hiB : interArea a b = boxArea b := by
        rw [unionArea] at hiu; linarith
      have hpos : 0 < interArea a b := by rw [hiu]; exact hu
      have hWpos : 0 < interW a b := by
        rcases lt_or_eq_of_le (interW_nonneg a b) with h' | h'
        · exact h'
        · exfalso; rw [interArea, ← h', zero_mul] at hpos; exact lt_irrefl 0 hpos
      have hHpos : 0 < interH a b := by
        rcases lt_or_eq_of_le (interH_nonneg a b) with h' | h'
        · exact h'
        · exfalso; rw [interArea, ← h', mul_zero] at hpos; exact lt_irrefl 0 hpos
      -- from interArea = boxArea a deduce interW = width a and interH = height a
      have hWa := interW_le_left b ha.1
      have hHa := interH_le_left b ha.2
      have hWb := interW_comm a b ▸ interW_le_left a hb.1
      have hHb := interH_comm a b ▸ interH_le_left a hb.2
      have hwapos : 0 < a.x2 - a.x1 := lt_of_lt_of_le hWpos hWa
      have hhapos : 0 < a.y2 - a.y1 := lt_of_lt_of_le hHpos hHa
      have hwbpos : 0 < b.x2 - b.x1 := lt_of_lt_of_le hWpos hWb
      have hhbpos : 0 < b.y2 - b.y1 := lt_of_lt_of_le hHpos hHb
      have hprodA : interW a b * interH a b = (a.x2 - a.x1) * (a.y2 - a.y1) := by
        rw [← interArea, ← boxArea]; exact hiA
      have hprodB : interW a b * interH a b = (b.x2 - b.x1) * (b.y2 - b.y1) := by
        rw [← interArea, ← boxArea]; exact hiB
      have hHeqA : interH a b = a.y2 - a.y1 := by nlinarith
      have hWeqA : interW a b = a.x2 - a.x1 := by nlinarith
      have hHeqB : interH a b = b.y2 - b.y1 := by nlinarith
      have hWeqB : interW a b = b.x2 - b.x1 := by nlinarith
      -- translate into coordinate equalities
      have hminx : min a.x2 b.x2 - max a.x1 b.x1 = a.x2 - a.x1 := by
        rcases max_choice 0 (min a.x2 b.x2 - max a.x1 b.x1) with h' | h'
        · exfalso; rw [interW] at hWeqA; rw [h'] at hWeqA; linarith
        · rw [interW] at hWeqA; rw [h'] at hWeqA; exact hWeqA
      have hminy : min a.y2 b.y2 - max a.y1 b.y1 = a.y2 - a.y1 := by
        rcases max_choice 0 (min a.y2 b.y2 - max a.y1 b.y1) with h' | h'
        · exfalso; rw [interH] at hHeqA; rw [h'] at hHeqA; linarith
        · rw [interH] at hHeqA; rw [h'] at hHeqA; exact hHeqA
      have hminxb : min a.x2 b.x2 - max a.x1 b.x1 = b.x2 - b.x1 := by
        rcases max_choice 0 (min a.x2 b.x2 - max a.x1 b.x1) with h' | h'
        · exfalso; rw [interW] at hWeqB; rw [h'] at hWeqB; linarith
        · rw [interW] at hWeqB; rw [h'] at hWeqB; exact hWeqB
      have hminyb : min a.y2 b.y2 - max a.y1 b.y1 = b.y2 - b.y1 := by
        rcases max_choice 0 (min a.y2 b.y2 - max a.y1 b.y1) with h' | h'
        · exfalso; rw [interH] at hHeqB; rw [h'] at hHeqB; linarith
        · rw [interH] at hHeqB; rw [h'] at hHeqB; exact hHeqB
      have hmx2a := min_le_left a.x2 b.x2
      have hmx2b := min_le_right a.x2 b.x2
      have hmx1a := le_max_left a.x1 b.x1
      have hmx1b := le_max_right a.x1 b.x1
      have hmy2a := min_le_left a.y2 b.y2
      have hmy2b := min_le_right a.y2 b.y2
      have hmy1a := le_max_left a.y1 b.y1
      have hmy1b := le_max_right a.y1 b.y1
      have ex1 : a.x1 = b.x1 := by linarith
      have ex2 : a.x2 = b.x2 := by linarith
      have ey1 : a.y1 = b.y1 := by linarith
      have ey2 : a.y2 = b.y2 := by linarith
      have hab : a = b := Box.ext ex1 ey1 ex2 ey2
      exact ⟨hab, lt_of_lt_of_eq hpos hiA⟩
    · rw [iou, if_neg hu] at h; exact absurd h (by norm_num)
  · rintro ⟨rfl, hpos⟩
    exact iou_self ha hpos

/-- C8: for well-formed xyxy boxes the computed IoU is symmetric, lies in
[0, 1], equals 1 exactly for identical boxes of positive area, and the
zero-union branch yields 0 without dividing. -/
theorem iou_spec (a b : Box) (ha : BoxWF a) (hb : BoxWF b) :
    iou a b = iou b a ∧ 0 ≤ iou a b ∧ iou a b ≤ 1 ∧
    (iou a b = 1 ↔ a = b ∧ 0 < boxArea a) ∧
    (unionArea a b = 0 → iou a b = 0) := by
  refine ⟨iou_comm a b, iou_nonneg a b, iou_le_one ha hb,
    iou_eq_one_iff ha hb, ?_⟩
  intro hz
  rw [iou, if_neg (by rw [hz]; exact lt_irrefl 0)]

/-- Witness: iou_spec applied at two concrete overlapping unit boxes. -/
theorem iou_spec_witness :
    BoxWF ⟨0, 0, 2, 2⟩ ∧ BoxWF ⟨1, 1, 3, 3⟩ ∧
    (0 ≤ iou ⟨0, 0, 2, 2⟩ ⟨1, 1, 3, 3⟩ ∧ iou ⟨0, 0, 2, 2⟩ ⟨1, 1, 3, 3⟩ ≤ 1 ∧
      iou ⟨0, 0, 2, 2⟩ ⟨1, 1, 3, 3⟩ = iou ⟨1, 1, 3, 3⟩ ⟨0, 0, 2, 2⟩) :=
  ⟨by decide, by decide,
    (iou_spec ⟨0, 0, 2, 2⟩ ⟨1, 1, 3, 3⟩ (by decide) (by decide)).2.1,
    (iou_spec ⟨0, 0, 2, 2⟩ ⟨1, 1, 3, 3⟩ (by decide) (by decide)).2.2.1,
    (iou_spec ⟨0, 0, 2, 2⟩ ⟨1, 1, 3, 3⟩ (by decide) (by decide)).1⟩

-- ---------------------------------------------------------------------------
-- Sample tag updates: PATCH /samples/bulk-tag (src/app/routers/samples.py
-- lines 182-209), PATCH /samples/bulk-untag (lines 212-239) and
-- PATCH /samples/set-triage-tag (src/app/routers/triage.py lines 30-59).
-- A samples row is reduced to the columns these updates read and write.
-- ---------------------------------------------------------------------------

/-- Row of the samples table, reduced to identity and the tags column. -/
structure SampleRow where
  id : String
  dataset_id : String
  tags : List String
deriving DecidableEq, Repr

/-- SET expression of the bulk-tag UPDATE (samples.py line 202):
list_distinct(list_append(COALESCE(tags, []), tag)). -/
def bulkTagExpr (tag : String) (tags : List String) : List String :=
  list_distinct (list_append tags tag)

/-- SET expression of the bulk-untag UPDATE (samples.py line 232):
list_filter(COALESCE(tags, []), x -> x != tag). -/
def bulkUntagExpr (tag : String) (tags : List String) : List String :=
  list_filter (fun x => x != tag) tags

/-- PATCH /samples/bulk-tag: more than 500 sample ids is rejected with
status 400, otherwise every sample of the dataset whose id is listed has
its tags column rewritten by bulkTagExpr (samples.py lines 192-209). -/
def bulkAddTag (datasetId tag : String) (sampleIds : List String)
    (db : List SampleRow) : Except Nat (List SampleRow) :=
  if sampleIds.length > 500 then .error 400
  else .ok (db.map fun s =>
    if s.dataset_id == datasetId && sampleIds.contains s.id then
      { s with tags := bulkTagExpr tag s.tags } else s)

/-- PATCH /samples/bulk-untag (samples.py lines 212-239). -/
def bulkRemoveTag (datasetId tag : String) (sampleIds : List String)
    (db : List SampleRow) : Except Nat (List SampleRow) :=
  if sampleIds.length > 500 then .error 400
  else .ok (db.map fun s =>
    if s.dataset_id == datasetId && sampleIds.contains s.id then
      { s with tags := bulkUntagExpr tag s.tags } else s)

theorem bulkTagExpr_mem_tag (tag : String) (l : List String) :
    tag ∈ bulkTagExpr tag l := by
  rw [bulkTagExpr, list_append]
  exact mem_list_distinct.mpr (by simp)

theorem bulkTagExpr_idem (tag : String) (l : List String) :
    bulkTagExpr tag (bulkTagExpr tag l) = bulkTagExpr tag l := by
  rw [bulkTagExpr, list_append,
    list_distinct_append_mem (bulkTagExpr_mem_tag tag l)]
  exact list_distinct_eq_self (nodup_list_distinct _)

theorem bulkUntag_after_tag {tag : String} {l : List String}
    (hn : l.Nodup) (hm : tag ∉ l) :
    bulkUntagExpr tag (bulkTagExpr tag l) = l := by
  rw [bulkTagExpr, list_append, list_distinct_append_not_mem hm,
    list_distinct_eq_self hn, bulkUntagExpr, list_filter]
  rw [List.filter_append]
  have h1 : l.filter (fun x => x != tag) = l := by
    apply List.filter_eq_self.mpr
    intro a ha
    simp only [bne_iff_ne, ne_eq, decide_eq_true_eq]
    intro hc; exact hm (hc ▸ ha)
  have h2 : [tag].filter (fun x => x != tag) = [] := by simp
  rw [h1, h2, List.append_nil]

/-- C7 counterexample: for a sample that already carries the tag, bulk-tag
followed by bulk-untag does not return the tag list to the pre-state (not
even modulo ordering): the pre-existing tag is lost. -/
theorem bulk_tag_roundtrip_cex :
    (bulkAddTag "d1" "dup" ["s1"] [⟨"s1", "d1", ["dup"]⟩]).bind
        (bulkRemoveTag "d1" "dup" ["s1"]) = .ok [⟨"s1", "d1", []⟩] ∧
    ¬ ([] : List String).Perm ["dup"] := by
  constructor
  · rfl
  · intro h; simpa using h.length_eq

/-- C7 amended: bulk-tag is idempotent; and bulk-untag after bulk-tag
restores the pre-state for duplicate-free tag lists that did not already
carry the tag (a sample already carrying it ends without it). -/
theorem bulk_tag_ops_amended (datasetId tag : String) (sampleIds : List String)
    (db : List SampleRow) (hlen : sampleIds.length ≤ 500) :
    (bulkAddTag datasetId tag sampleIds db).bind
        (bulkAddTag datasetId tag sampleIds)
      = bulkAddTag datasetId tag sampleIds db ∧
    ((∀ s ∈ db, s.dataset_id = datasetId → s.id ∈ sampleIds →
        s.tags.Nodup ∧ tag ∉ s.tags) →
      (bulkAddTag datasetId tag sampleIds db).bind
          (bulkRemoveTag datasetId tag sampleIds) = .ok db) := by
  have hno : ¬ sampleIds.length > 500 := Nat.not_lt.mpr hlen
  constructor
  · simp only [bulkAddTag, if_neg hno, Except.bind, List.map_map]
    congr 1
    apply List.map_congr_left
    intro s _
    by_cases hc : s.dataset_id = datasetId ∧ s.id ∈ sampleIds
    · simp [Function.comp, hc.1, hc.2, bulkTagExpr_idem]
    · simp [Function.comp, hc]
  · intro hdb
    simp only [bulkAddTag, bulkRemoveTag, if_neg hno, Except.bind, List.map_map]
    congr 1
    have key : ∀ s ∈ db, (fun s =>
        if (s.dataset_id == datasetId && sampleIds.contains s.id) = true then
          { s with tags := bulkUntagExpr tag s.tags } else s)
        ((fun s => if (s.dataset_id == datasetId && sampleIds.contains s.id) = true then
          { s with tags := bulkTagExpr tag s.tags } else s) s) = s := by
      intro s hs
      by_cases hc : s.dataset_id = datasetId ∧ s.id ∈ sampleIds
      · have h2 := hdb s hs hc.1 hc.2
        simp [hc.1, hc.2, bulkUntag_after_tag h2.1 h2.2]
        rw [← hc.1]
      · simp [hc]
    calc (db.map _) = db.map id := List.map_congr_left (by
            intro s hs
            exact key s hs)
      _ = db := List.map_id db

/-- Witness for the amended C7 theorem at a concrete one-sample state. -/
theorem bulk_tag_ops_amended_witness :
    (["s1"] : List String).length ≤ 500 ∧
    (bulkAddTag "d1" "new" ["s1"] [⟨"s1", "d1", ["old"]⟩]).bind
        (bulkAddTag "d1" "new" ["s1"])
      = bulkAddTag "d1" "new" ["s1"] [⟨"s1", "d1", ["old"]⟩] ∧
    (bulkAddTag "d1" "new" ["s1"] [⟨"s1", "d1", ["old"]⟩]).bind
        (bulkRemoveTag "d1" "new" ["s1"]) = .ok [⟨"s1", "d1", ["old"]⟩] := by
  have h := bulk_tag_ops_amended "d1" "new" ["s1"] [⟨"s1", "d1", ["old"]⟩]
    (by decide)
  exact ⟨by decide, h.1, h.2 (by decide)⟩


-- ---------------------------------------------------------------------------
-- PATCH /samples/set-triage-tag (src/app/routers/triage.py lines 30-59,
-- constants from src/app/models/triage.py).
-- ---------------------------------------------------------------------------

/-- TRIAGE_PREFIX from models/triage.py. -/
def triagePre : String := "triage:"

/-- VALID_TRIAGE_TAGS from models/triage.py (a set in the source;
membership is all the handler uses). -/
def validTriageTags : List String :=
  ["triage:fp", "triage:tp", "triage:fn", "triage:mistake"]

/-- Model of the DuckDB starts_with primitive as a character-level test
on the underlying character lists. -/
def starts_with (x pre : String) : Bool := pre.data.isPrefixOf x.data

/-- SET expression of the set-triage-tag UPDATE (triage.py lines 51-53):
list_distinct(list_append(list_filter(COALESCE(tags, []),
x -> NOT starts_with(x, TRIAGE_PREFIX)), tag)). -/
def triageSetExpr (tag : String) (tags : List String) : List String :=
  list_distinct (list_append
    (list_filter (fun x => !(starts_with x triagePre)) tags) tag)

/-- PATCH /samples/set-triage-tag: a tag outside the valid set is rejected
with 400; otherwise the UPDATE rewrites the tags of the sample with the
matching dataset_id and id (triage.py lines 42-59). -/
def setTriageTag (datasetId sampleId tag : String) (db : List SampleRow) :
    Except Nat (List SampleRow) :=
  if validTriageTags.contains tag then
    .ok (db.map fun s =>
      if s.dataset_id == datasetId && s.id == sampleId then
        { s with tags := triageSetExpr tag s.tags } else s)
  else .error 400

theorem valid_triage_tags_have_pre :
    ∀ t ∈ validTriageTags, starts_with t triagePre = true := by decide

theorem triageSetExpr_eq {tag : String} (tags : List String)
    (htp : starts_with tag triagePre = true) :
    triageSetExpr tag tags =
      list_distinct (tags.filter (fun x => !(starts_with x triagePre))) ++ [tag] := by
  rw [triageSetExpr, list_append, list_filter]
  apply list_distinct_append_not_mem
  intro hmem
  have := (List.mem_filter.mp hmem).2
  rw [htp] at this
  simp at this

/-- C9: after PATCH /samples/set-triage-tag with a valid tag, the updated
row of the addressed sample is in the new table state; its tag list holds
exactly one triage-prefixed tag, the new one, and membership of every
non-triage tag is unchanged. -/
theorem set_triage_tag_spec (datasetId sampleId tag : String)
    (db db' : List SampleRow)
    (h : setTriageTag datasetId sampleId tag db = .ok db')
    (s : SampleRow) (hs : s ∈ db) (hd : s.dataset_id = datasetId)
    (hi : s.id = sampleId) :
    ({ s with tags := triageSetExpr tag s.tags } : SampleRow) ∈ db' ∧
    (triageSetExpr tag s.tags).filter (fun x => starts_with x triagePre)
      = [tag] ∧
    ∀ t, starts_with t triagePre = false →
      (t ∈ triageSetExpr tag s.tags ↔ t ∈ s.tags) := by
  have hvalid : validTriageTags.contains tag = true := by
    by_contra hcon
    rw [setTriageTag, if_neg (by simpa using hcon)] at h
    exact Except.noConfusion h
  have hmemv : tag ∈ validTriageTags := by simpa using hvalid
  have htp : starts_with tag triagePre = true :=
    valid_triage_tags_have_pre tag hmemv
  have hdb' : db' = db.map fun s =>
      if s.dataset_id == datasetId && s.id == sampleId then
        { s with tags := triageSetExpr tag s.tags } else s := by
    rw [setTriageTag, if_pos hvalid] at h
    cases h
    rfl
  refine ⟨?_, ?_, ?_⟩
  · rw [hdb']
    have := List.mem_map_of_mem (fun s : SampleRow =>
      if s.dataset_id == datasetId && s.id == sampleId then
        { s with tags := triageSetExpr tag s.tags } else s) hs
    simpa [hd, hi] using this
  · rw [triageSetExpr_eq s.tags htp, List.filter_append]
    have h1 : (list_distinct
        (s.tags.filter (fun x => !(starts_with x triagePre)))).filter
        (fun x => starts_with x triagePre) = [] := by
      apply List.filter_eq_nil_iff.mpr
      intro a ha
      have := (List.mem_filter.mp (mem_list_distinct.mp ha)).2
      simp only [Bool.not_eq_true'] at this
      simp [this]
    have h2 : ([tag].filter (fun x => starts_with x triagePre)) = [tag] := by
      simp [htp]
    rw [h1, h2, List.nil_append]
  · intro t ht
    rw [triageSetExpr_eq s.tags htp]
    constructor
    · intro hmem
      rcases List.mem_append.mp hmem with h' | h'
      · exact (List.mem_filter.mp (mem_list_distinct.mp h')).1
      · exfalso
        have : t = tag := by simpa using h'
        rw [this, htp] at ht
        exact Bool.noConfusion ht
    · intro hmem
      apply List.mem_append.mpr
      left
      apply mem_list_distinct.mpr
      apply List.mem_filter.mpr
      exact ⟨hmem, by simp [ht]⟩

/-- Witness: set_triage_tag_spec at a sample that carries a non-triage
tag, a previous triage tag and the annotated marker. -/
theorem set_triage_tag_spec_witness :
    setTriageTag "d1" "s1" "triage:fn"
        [⟨"s1", "d1", ["keep", "triage:fp", "triage:annotated"]⟩]
      = .ok [⟨"s1", "d1", ["keep", "triage:fn"]⟩] ∧
    (triageSetExpr "triage:fn" ["keep", "triage:fp", "triage:annotated"]).filter
        (fun x => starts_with x triagePre) = ["triage:fn"] := by
  have h := set_triage_tag_spec "d1" "s1" "triage:fn"
    [⟨"s1", "d1", ["keep", "triage:fp", "triage:annotated"]⟩]
    [⟨"s1", "d1", ["keep", "triage:fn"]⟩] (by rfl)
    ⟨"s1", "d1", ["keep", "triage:fp", "triage:annotated"]⟩
    (by simp) rfl rfl
  exact ⟨by rfl, h.2.1⟩

-- ---------------------------------------------------------------------------
-- Per-annotation matching for triage overlay
-- (src/app/services/annotation_matching.py, match_sample_annotations,
-- lines 18-135).
-- ---------------------------------------------------------------------------

/-- Annotation row as queried with its id:
(id, category_name, bbox_x, bbox_y, bbox_w, bbox_h, confidence). -/
structure AnnRow where
  id : String
  cat : String
  x : ℚ
  y : ℚ
  w : ℚ
  h : ℚ
  conf : Option ℚ
deriving DecidableEq, Repr, Inhabited

/-- xywh to xyxy box conversion (annotation_matching.py lines 72-75, 86). -/
def annBox (r : AnnRow) : Box := ⟨r.x, r.y, r.x + r.w, r.y + r.h⟩

/-- Effective confidence with null treated as 1.0 (line 57). -/
def effConf (c : Option ℚ) : ℚ := c.getD 1

/-- Per-annotation result value: label, matched counterpart id, IoU. -/
structure MatchInfo where
  label : String
  matched_id : Option String
  iouVal : Option ℚ
deriving DecidableEq, Repr

/-- Confidence filter (lines 53-59) followed by the stable sort by
confidence descending (lines 61-64). -/
def filteredSortedPreds (confT : ℚ) (predRows : List AnnRow) : List AnnRow :=
  sortLe (fun a b => decide (-(effConf a.conf) ≤ -(effConf b.conf)))
    (predRows.filter (fun r => decide (confT ≤ effConf r.conf)))

/-- One step of the greedy prediction walk (lines 84-110).  State: the
results association list in insertion order and the list of matched GT
indices. -/
def predStep (gtRows : List AnnRow) (iouT : ℚ)
    (st : List (String × MatchInfo) × List ℕ) (p : AnnRow) :
    List (String × MatchInfo) × List ℕ :=
  if 0 < gtRows.length then
    let ious := gtRows.map (fun g => iou (annBox p) (annBox g))
    let bi := argmaxQ ious
    let bv := ious.getD bi 0
    if iouT ≤ bv ∧ bi ∉ st.2 then
      (st.1 ++ [(p.id,
        ⟨if (gtRows.getD bi default).cat = p.cat then "tp" else "label_error",
          some (gtRows.getD bi default).id, some bv⟩)], st.2 ++ [bi])
    else (st.1 ++ [(p.id, ⟨"fp", none, none⟩)], st.2)
  else (st.1 ++ [(p.id, ⟨"fp", none, none⟩)], st.2)

/-- The full prediction phase of match_sample_annotations. -/
def predPhase (gtRows predRows : List AnnRow) (iouT confT : ℚ) :
    List (String × MatchInfo) × List ℕ :=
  (filteredSortedPreds confT predRows).foldl (predStep gtRows iouT) ([], [])

/-- Ground-truth pass (lines 112-133): a consumed GT is labelled tp, with
the first results entry pointing at it as matched prediction; an
unconsumed GT is labelled fn. -/
def gtStep (gtRows : List AnnRow) (matched : List ℕ)
    (res : List (String × MatchInfo)) (gi : ℕ) : List (String × MatchInfo) :=
  if gi ∈ matched then
    match res.find? (fun e => e.2.matched_id == some (gtRows.getD gi default).id) with
    | some e => res ++ [((gtRows.getD gi default).id, ⟨"tp", some e.1, e.2.iouVal⟩)]
    | none => res ++ [((gtRows.getD gi default).id, ⟨"tp", none, none⟩)]
  else res ++ [((gtRows.getD gi default).id, ⟨"fn", none, none⟩)]

/-- match_sample_annotations: prediction walk, then the GT pass over all
GT indices in order. -/
def matchSampleAnns (gtRows predRows : List AnnRow) (iouT confT : ℚ) :
    List (String × MatchInfo) :=
  (List.range gtRows.length).foldl
    (gtStep gtRows (predPhase gtRows predRows iouT confT).2)
    (predPhase gtRows predRows iouT confT).1

/-- Dict access on the results association list (keys are unique ids). -/
def lookupRes (res : List (String × MatchInfo)) (k : String) : Option MatchInfo :=
  (res.find? (fun e => e.1 == k)).map (fun e => e.2)

-- Bound for argmaxQ.

theorem argmaxQ_foldl_bound (xs : List ℚ) :
    ∀ (bi : ℕ) (bv : ℚ) (i : ℕ), bi < i →
    (xs.foldl argmaxStep (bi, bv, i)).1 < i + xs.length := by
  induction xs with
  | nil => intro bi bv i h; simpa using h
  | cons v vs ih =>
    intro bi bv i h
    simp only [List.foldl_cons, List.length_cons, argmaxStep]
    by_cases hv : bv < v
    · have := ih i v (i + 1) (Nat.lt_succ_self i)
      simp only [if_pos hv]
      omega
    · have := ih bi bv (i + 1) (Nat.lt_succ_of_lt h)
      simp only [if_neg hv]
      omega

theorem argmaxQ_lt {l : List ℚ} (h : l ≠ []) : argmaxQ l < l.length := by
  match l with
  | [] => exact absurd rfl h
  | x :: xs =>
    have := argmaxQ_foldl_bound xs 0 x 1 Nat.one_pos
    simpa [argmaxQ, Nat.add_comm] using this

-- Shape of a single prediction step: exactly one entry is appended.

theorem predStep_shape (gtRows : List AnnRow) (iouT : ℚ)
    (st : List (String × MatchInfo) × List ℕ) (p : AnnRow) :
    ∃ info : MatchInfo,
      (predStep gtRows iouT st p).1 = st.1 ++ [(p.id, info)] := by
  rw [predStep]
  by_cases h0 : 0 < gtRows.length
  · simp only [if_pos h0]
    by_cases hc : iouT ≤ (gtRows.map (fun g => iou (annBox p) (annBox g))).getD
        (argmaxQ (gtRows.map (fun g => iou (annBox p) (annBox g)))) 0 ∧
        argmaxQ (gtRows.map (fun g => iou (annBox p) (annBox g))) ∉ st.2
    · exact ⟨_, by rw [if_pos hc]⟩
    · exact ⟨_, by rw [if_neg hc]⟩
  · exact ⟨_, by rw [if_neg h0]⟩

/-- Invariant tying matched GT indices to the matched_id fields recorded
in the results list during the prediction walk. -/
def StRel (gtRows : List AnnRow) (st : List (String × MatchInfo) × List ℕ) : Prop :=
  (∀ n ∈ st.2, n < gtRows.length) ∧
  (∀ gid : String, (∃ e ∈ st.1, (e : String × MatchInfo).2.matched_id = some gid) ↔
    ∃ n ∈ st.2, (gtRows.getD n default).id = gid)

theorem stRel_predStep (gtRows : List AnnRow) (iouT : ℚ)
    (st : List (String × MatchInfo) × List ℕ) (p : AnnRow)
    (h : StRel gtRows st) : StRel gtRows (predStep gtRows iouT st p) := by
  obtain ⟨hb, he⟩ := h
  rw [predStep]
  by_cases h0 : 0 < gtRows.length
  · simp only [if_pos h0]
    set ious := gtRows.map (fun g => iou (annBox p) (annBox g)) with hious
    by_cases hc : iouT ≤ ious.getD (argmaxQ ious) 0 ∧ argmaxQ ious ∉ st.2
    · rw [if_pos hc]
      have hlen : ious ≠ [] := by
        rw [hious]
        intro hnil
        rw [List.map_eq_nil_iff] at hnil
        rw [hnil] at h0
        simp at h0
      have hbi : argmaxQ ious < gtRows.length := by
        have := argmaxQ_lt hlen
        rwa [hious, List.length_map] at this
      constructor
      · intro n hn
        rcases List.mem_append.mp hn with h' | h'
        · exact hb n h'
        · have : n = argmaxQ ious := by simpa using h'
          rw [this]; exact hbi
      · intro gid
        constructor
        · intro ⟨e, hem, hid⟩
          rcases List.mem_append.mp hem with h' | h'
          · obtain ⟨n, hn, hgn⟩ := (he gid).mp ⟨e, h', hid⟩
            exact ⟨n, List.mem_append.mpr (Or.inl hn), hgn⟩
          · have : e = (p.id,
                ⟨if (gtRows.getD (argmaxQ ious) default).cat = p.cat then "tp"
                  else "label_error",
                 some (gtRows.getD (argmaxQ ious) default).id,
                 some (ious.getD (argmaxQ ious) 0)⟩) := by simpa using h'
            refine ⟨argmaxQ ious, List.mem_append.mpr (Or.inr (by simp)), ?_⟩
            rw [this] at hid
            simpa using hid
        · intro ⟨n, hn, hgn⟩
          rcases List.mem_append.mp hn with h' | h'
          · obtain ⟨e, hem, hid⟩ := (he gid).mpr ⟨n, h', hgn⟩
            exact ⟨e, List.mem_append.mpr (Or.inl hem), hid⟩
          · have hn' : n = argmaxQ ious := by simpa using h'
            refine ⟨(p.id,
              ⟨if (gtRows.getD (argmaxQ ious) default).cat = p.cat then "tp"
                else "label_error",
               some (gtRows.getD (argmaxQ ious) default).id,
               some (ious.getD (argmaxQ ious) 0)⟩),
              List.mem_append.mpr (Or.inr (by simp)), ?_⟩
            simp only
            rw [← hn', hgn]
    · rw [if_neg hc]
      constructor
      · exact hb
      · intro gid
        constructor
        · intro ⟨e, hem, hid⟩
          rcases List.mem_append.mp hem with h' | h'
          · exact (he gid).mp ⟨e, h', hid⟩
          · have : e = (p.id, ⟨"fp", none, none⟩) := by simpa using h'
            rw [this] at hid
            exact absurd hid (by simp)
        · intro hex
          obtain ⟨e, hem, hid⟩ := (he gid).mpr hex
          exact ⟨e, List.mem_append.mpr (Or.inl hem), hid⟩
  · simp only [if_neg h0]
    constructor
    · exact hb
    · intro gid
      constructor
      · intro ⟨e, hem, hid⟩
        rcases List.mem_append.mp hem with h' | h'
        · exact (he gid).mp ⟨e, h', hid⟩
        · have : e = (p.id, ⟨"fp", none, none⟩) := by simpa using h'
          rw [this] at hid
          exact absurd hid (by simp)
      · intro hex
        obtain ⟨e, hem, hid⟩ := (he gid).mpr hex
        exact ⟨e, List.mem_append.mpr (Or.inl hem), hid⟩

theorem stRel_foldl (gtRows : List AnnRow) (iouT : ℚ) (l : List AnnRow)
    (st : List (String × MatchInfo) × List ℕ) (h : StRel gtRows st) :
    StRel gtRows (l.foldl (predStep gtRows iouT) st) := by
  induction l generalizing st with
  | nil => exact h
  | cons p ps ih => exact ih _ (stRel_predStep gtRows iouT st p h)

theorem stRel_predPhase (gtRows predRows : List AnnRow) (iouT confT : ℚ) :
    StRel gtRows (predPhase gtRows predRows iouT confT) := by
  apply stRel_foldl
  exact ⟨by simp, fun gid => by simp⟩

-- Membership through the stable sort, and key bookkeeping.

theorem mem_insertLe {α : Type} (le : α → α → Bool) (x a : α) (l : List α) :
    a ∈ insertLe le x l ↔ a = x ∨ a ∈ l := by
  induction l with
  | nil => simp [insertLe]
  | cons y ys ih =>
    rw [insertLe]
    by_cases h : le y x
    · rw [if_pos h]
      simp only [List.mem_cons, ih]
      tauto
    · rw [if_neg h]
      simp only [List.mem_cons]

theorem mem_sortLe {α : Type} (le : α → α → Bool) (l : List α) (a : α) :
    a ∈ sortLe le l ↔ a ∈ l := by
  suffices h : ∀ acc : List α,
      a ∈ l.foldl (fun acc x => insertLe le x acc) acc ↔ a ∈ acc ∨ a ∈ l by
    simpa [sortLe] using h []
  induction l with
  | nil => intro acc; simp
  | cons x xs ih =>
    intro acc
    simp only [List.foldl_cons]
    rw [ih (insertLe le x acc), mem_insertLe]
    simp only [List.mem_cons]
    tauto

theorem predStep_fold_keys (gtRows : List AnnRow) (iouT : ℚ) :
    ∀ (l : List AnnRow) (st : List (String × MatchInfo) × List ℕ),
    ((l.foldl (predStep gtRows iouT) st).1).map Prod.fst
      = st.1.map Prod.fst ++ l.map AnnRow.id := by
  intro l
  induction l with
  | nil => intro st; simp
  | cons p ps ih =>
    intro st
    simp only [List.foldl_cons, List.map_cons]
    obtain ⟨info, hshape⟩ := predStep_shape gtRows iouT st p
    rw [ih (predStep gtRows iouT st p), hshape]
    simp

theorem gtStep_eq (gtRows : List AnnRow) (matched : List ℕ)
    (res : List (String × MatchInfo)) (gi : ℕ) :
    ∃ info : MatchInfo,
      gtStep gtRows matched res gi
        = res ++ [((gtRows.getD gi default).id, info)] ∧
      info.label = (if gi ∈ matched then "tp" else "fn") := by
  rw [gtStep]
  by_cases h : gi ∈ matched
  · rw [if_pos h]
    cases hf : res.find?
        (fun e => e.2.matched_id == some (gtRows.getD gi default).id) with
    | none => exact ⟨_, rfl, by rw [if_pos h]⟩
    | some e => exact ⟨_, rfl, by rw [if_pos h]⟩
  · rw [if_neg h]
    exact ⟨_, rfl, by rw [if_neg h]⟩

theorem gtStep_fold_ext (gtRows : List AnnRow) (matched : List ℕ) :
    ∀ (idxs : List ℕ) (res0 : List (String × MatchInfo)),
    ∃ ext : List (String × MatchInfo),
      idxs.foldl (gtStep gtRows matched) res0 = res0 ++ ext ∧
      (∀ e ∈ ext, ∃ j ∈ idxs, Prod.fst e = (gtRows.getD j default).id ∧
        (Prod.snd e).label = (if j ∈ matched then "tp" else "fn")) ∧
      (∀ j ∈ idxs, ∃ e ∈ ext, Prod.fst e = (gtRows.getD j default).id ∧
        (Prod.snd e).label = (if j ∈ matched then "tp" else "fn")) := by
  intro idxs
  induction idxs with
  | nil => intro res0; exact ⟨[], by simp, by simp, by simp⟩
  | cons j js ih =>
    intro res0
    obtain ⟨info, hstep, hlbl⟩ := gtStep_eq gtRows matched res0 j
    obtain ⟨ext', hfold, hfwd, hbwd⟩ := ih (gtStep gtRows matched res0 j)
    refine ⟨((gtRows.getD j default).id, info) :: ext', ?_, ?_, ?_⟩
    · simp only [List.foldl_cons]
      rw [hfold, hstep]
      simp
    · intro e he
      rcases List.mem_cons.mp he with rfl | he'
      · exact ⟨j, List.mem_cons_self _ _, rfl, hlbl⟩
      · obtain ⟨j', hj', h1, h2⟩ := hfwd e he'
        exact ⟨j', List.mem_cons_of_mem _ hj', h1, h2⟩
    · intro j' hj'
      rcases List.mem_cons.mp hj' with rfl | hj''
      · exact ⟨((gtRows.getD j' default).id, info),
          List.mem_cons_self _ _, rfl, hlbl⟩
      · obtain ⟨e, he, h1, h2⟩ := hbwd j' hj''
        exact ⟨e, List.mem_cons_of_mem _ he, h1, h2⟩

theorem find?_append_of_none {α : Type} (p : α → Bool) {l1 : List α}
    (l2 : List α) (h : ∀ x ∈ l1, p x = false) :
    (l1 ++ l2).find? p = l2.find? p := by
  induction l1 with
  | nil => simp
  | cons a l ih =>
    have ha := h a (List.mem_cons_self a l)
    simp only [List.cons_append]
    rw [List.find?_cons_of_neg _ (by simp [ha])]
    exact ih (fun x hx => h x (List.mem_cons_of_mem a hx))

theorem gtId_inj {gtRows : List AnnRow} (hn : (gtRows.map AnnRow.id).Nodup)
    {n m : ℕ} (hnl : n < gtRows.length) (hml : m < gtRows.length)
    (h : (gtRows.getD n default).id = (gtRows.getD m default).id) : n = m := by
  rw [List.getD_eq_getElem gtRows default hnl,
    List.getD_eq_getElem gtRows default hml] at h
  have hn' : n < (gtRows.map AnnRow.id).length := by simpa using hnl
  have hm' : m < (gtRows.map AnnRow.id).length := by simpa using hml
  have : (gtRows.map AnnRow.id)[n] = (gtRows.map AnnRow.id)[m] := by
    simpa using h
  exact (List.Nodup.getElem_inj_iff hn).mp this

/-- C10: in the per-annotation overlay matcher, the results entry of a GT
annotation is labelled tp exactly when some prediction entry of the
greedy walk consumed it (its matched_id points at the GT) — including
consumption by a prediction that itself was labelled label_error — and
fn exactly when no prediction consumed it. -/
theorem gt_consumed_label_tp (gtRows predRows : List AnnRow) (iouT confT : ℚ)
    (hids : ((gtRows.map AnnRow.id) ++ (predRows.map AnnRow.id)).Nodup)
    (gi : ℕ) (hgi : gi < gtRows.length) :
    ∃ info : MatchInfo,
      lookupRes (matchSampleAnns gtRows predRows iouT confT)
        ((gtRows.getD gi default).id) = some info ∧
      (info.label = "tp" ↔ ∃ e ∈ (predPhase gtRows predRows iouT confT).1,
        (Prod.snd e).matched_id = some ((gtRows.getD gi default).id)) ∧
      (info.label = "fn" ↔ ¬ ∃ e ∈ (predPhase gtRows predRows iouT confT).1,
        (Prod.snd e).matched_id = some ((gtRows.getD gi default).id)) := by
  have hnodGt : (gtRows.map AnnRow.id).Nodup := hids.of_append_left
  have hdisj : (gtRows.map AnnRow.id).Disjoint (predRows.map AnnRow.id) :=
    List.disjoint_of_nodup_append hids
  obtain ⟨hb, he⟩ := stRel_predPhase gtRows predRows iouT confT
  have hcons : (∃ e ∈ (predPhase gtRows predRows iouT confT).1,
      (Prod.snd e).matched_id = some ((gtRows.getD gi default).id)) ↔
      gi ∈ (predPhase gtRows predRows iouT confT).2 := by
    rw [he ((gtRows.getD gi default).id)]
    constructor
    · rintro ⟨n, hn, hgn⟩
      have := gtId_inj hnodGt (hb n hn) hgi hgn
      exact this ▸ hn
    · intro hgim
      exact ⟨gi, hgim, rfl⟩
  have hkeys : ∀ e ∈ (predPhase gtRows predRows iouT confT).1,
      Prod.fst e ∈ predRows.map AnnRow.id := by
    intro e hem
    have hmm : Prod.fst e ∈ ((predPhase gtRows predRows iouT confT).1).map Prod.fst :=
      List.mem_map_of_mem Prod.fst hem
    rw [predPhase, predStep_fold_keys gtRows iouT
      (filteredSortedPreds confT predRows) ([], [])] at hmm
    simp only [List.map_nil, List.nil_append] at hmm
    obtain ⟨p, hp, hpe⟩ := List.mem_map.mp hmm
    rw [filteredSortedPreds, mem_sortLe] at hp
    have hp' : p ∈ predRows := List.mem_of_mem_filter hp
    exact hpe ▸ List.mem_map_of_mem AnnRow.id hp'
  have hgidmem : (gtRows.getD gi default).id ∈ gtRows.map AnnRow.id := by
    rw [List.getD_eq_getElem gtRows default hgi]
    exact List.mem_map_of_mem AnnRow.id (gtRows.getElem_mem hgi)
  have hnone : ∀ x ∈ (predPhase gtRows predRows iouT confT).1,
      (Prod.fst x == (gtRows.getD gi default).id) = false := by
    intro x hx
    apply beq_eq_false_iff_ne.mpr
    intro hEq
    exact hdisj hgidmem (hEq ▸ hkeys x hx)
  obtain ⟨ext, hfold, hfwd, hbwd⟩ := gtStep_fold_ext gtRows
    (predPhase gtRows predRows iouT confT).2 (List.range gtRows.length)
    (predPhase gtRows predRows iouT confT).1
  have hM : matchSampleAnns gtRows predRows iouT confT
      = (predPhase gtRows predRows iouT confT).1 ++ ext := by
    rw [matchSampleAnns]
    exact hfold
  obtain ⟨e0, he0, hk0, hl0⟩ := hbwd gi (List.mem_range.mpr hgi)
  have hfind : (matchSampleAnns gtRows predRows iouT confT).find?
      (fun e => Prod.fst e == (gtRows.getD gi default).id)
      = ext.find? (fun e => Prod.fst e == (gtRows.getD gi default).id) := by
    rw [hM]
    exact find?_append_of_none _ ext hnone
  cases hf : ext.find? (fun e => Prod.fst e == (gtRows.getD gi default).id) with
  | none =>
    exfalso
    have := List.find?_eq_none.mp hf e0 he0
    rw [hk0] at this
    simp at this
  | some e =>
    have hpe : Prod.fst e = (gtRows.getD gi default).id := by
      simpa using List.find?_some hf
    have hme : e ∈ ext := List.mem_of_find?_eq_some hf
    obtain ⟨j, hj, hkj, hlj⟩ := hfwd e hme
    have hjlen : j < gtRows.length := List.mem_range.mp hj
    have hkeq : (gtRows.getD j default).id = (gtRows.getD gi default).id := by
      rw [← hkj]
      exact hpe
    have hji : j = gi := gtId_inj hnodGt hjlen hgi hkeq
    rw [hji] at hlj
    refine ⟨Prod.snd e, ?_, ?_, ?_⟩
    · rw [lookupRes, hfind, hf]
      rfl
    · constructor
      · intro h
        by_cases hgim : gi ∈ (predPhase gtRows predRows iouT confT).2
        · exact hcons.mpr hgim
        · rw [hlj, if_neg hgim] at h
          exact absurd h (by decide)
      · intro h
        rw [hlj, if_pos (hcons.mp h)]
    · constructor
      · intro h hc
        rw [hlj, if_pos (hcons.mp hc)] at h
        exact absurd h (by decide)
      · intro h
        rw [hlj, if_neg (fun hg => h (hcons.mpr hg))]

/-- Witness: one GT box of class car and one overlapping prediction of
class truck; the prediction consumes the GT as a label_error, and the
matcher still labels the GT tp. -/
theorem gt_consumed_label_tp_witness :
    (((([⟨"g1", "car", 0, 0, 10, 10, none⟩] : List AnnRow).map AnnRow.id)
      ++ (([⟨"p1", "truck", 0, 0, 10, 10, some (9/10)⟩] : List AnnRow).map
        AnnRow.id)).Nodup) ∧
    0 < ([⟨"g1", "car", 0, 0, 10, 10, none⟩] : List AnnRow).length ∧
    ∃ info : MatchInfo,
      lookupRes (matchSampleAnns [⟨"g1", "car", 0, 0, 10, 10, none⟩]
          [⟨"p1", "truck", 0, 0, 10, 10, some (9/10)⟩] (45/100) (25/100))
        ((([⟨"g1", "car", 0, 0, 10, 10, none⟩] : List AnnRow).getD 0
          default).id) = some info ∧
      (info.label = "tp" ↔ ∃ e ∈ (predPhase [⟨"g1", "car", 0, 0, 10, 10, none⟩]
          [⟨"p1", "truck", 0, 0, 10, 10, some (9/10)⟩] (45/100) (25/100)).1,
        (Prod.snd e).matched_id = some ((([⟨"g1", "car", 0, 0, 10, 10, none⟩] :
          List AnnRow).getD 0 default).id)) ∧
      (info.label = "fn" ↔ ¬ ∃ e ∈ (predPhase [⟨"g1", "car", 0, 0, 10, 10, none⟩]
          [⟨"p1", "truck", 0, 0, 10, 10, some (9/10)⟩] (45/100) (25/100)).1,
        (Prod.snd e).matched_id = some ((([⟨"g1", "car", 0, 0, 10, 10, none⟩] :
          List AnnRow).getD 0 default).id)) :=
  ⟨by decide, by decide,
    gt_consumed_label_tp [⟨"g1", "car", 0, 0, 10, 10, none⟩]
      [⟨"p1", "truck", 0, 0, 10, 10, some (9/10)⟩] (45/100) (25/100)
      (by decide) 0 (by decide)⟩

-- ---------------------------------------------------------------------------
-- Error categorisation (src/app/services/error_analysis.py,
-- categorize_errors, lines 30-189) and worst-image scoring
-- (src/app/services/triage.py, compute_worst_images, lines 20-88).
-- ---------------------------------------------------------------------------

/-- Detection row as grouped by _load_detections (evaluation.py lines
225-283): the tuple (category_name, bbox_x, bbox_y, bbox_w, bbox_h,
confidence), indices 0 to 5.  bbox columns are NOT NULL doubles. -/
structure BoxRow where
  cat : String
  x : ℚ
  y : ℚ
  w : ℚ
  h : ℚ
  conf : Option ℚ
deriving DecidableEq, Repr, Inhabited

/-- Index 4 of a row.  In the layout (cat, x, y, w, h, conf) index 4 is
the bbox height; categorize_errors reads r[4] in its confidence filter
and sort (error_analysis.py lines 82-88) although its comment names the
row layout, whose confidence sits at index 5. -/
def elem4 (r : BoxRow) : ℚ := r.h

/-- Index 5 of a row: the confidence column. -/
def elem5 (r : BoxRow) : Option ℚ := r.conf

/-- The value (r[4] if r[4] is not None else 1.0) used by the filter and
sort of categorize_errors; bbox_h is NOT NULL, so the null guard never
fires and the value is always the bbox height. -/
def filterKey (r : BoxRow) : ℚ := elem4 r

/-- xywh to xyxy conversion (error_analysis.py lines 92-94 and 105). -/
def rowBox (r : BoxRow) : Box := ⟨r.x, r.y, r.x + r.w, r.y + r.h⟩

/-- Predictions retained by the filter of error_analysis.py lines 83-85:
the code compares r[4], the bbox height, against conf_threshold. -/
def filteredPredsCode (confT : ℚ) (predRows : List BoxRow) : List BoxRow :=
  predRows.filter (fun r => decide (confT ≤ filterKey r))

/-- The sort of error_analysis.py line 88 with key -(r[4] or 1.0):
stable descending in the bbox height. -/
def sortedPredsCode (confT : ℚ) (predRows : List BoxRow) : List BoxRow :=
  sortLe (fun a b => decide (-(filterKey a) ≤ -(filterKey b)))
    (filteredPredsCode confT predRows)

/-- An entry of samples_by_type (model of ErrorSample). -/
structure ErrSample where
  sample_id : String
  error_type : String
  category_name : String
  confidence : Option ℚ
deriving DecidableEq, Repr

/-- Running output of categorize_errors: the four totals and the four
capped per-type sample lists (the per-class counter map is not modelled;
no claim reads it). -/
structure CatOut where
  tp : ℕ
  hardFp : ℕ
  labelError : ℕ
  fn : ℕ
  tpList : List ErrSample
  hardFpList : List ErrSample
  labelErrorList : List ErrSample
  fnList : List ErrSample
deriving DecidableEq, Repr

def catOutInit : CatOut := ⟨0, 0, 0, 0, [], [], [], []⟩

/-- _MAX_SAMPLES_PER_TYPE (error_analysis.py line 27). -/
def maxSamplesPerType : ℕ := 50

/-- Record one categorised prediction: bump the counter of its error
type and append an entry to the per-type list unless the cap is reached
(error_analysis.py lines 126-146). -/
def bumpPred (st : CatOut) (sid : String) (etype : String) (r : BoxRow) :
    CatOut :=
  if etype = "tp" then
    { st with
      tp := st.tp + 1
      tpList := if st.tpList.length < maxSamplesPerType then
        st.tpList ++ [⟨sid, "tp", r.cat, elem5 r⟩] else st.tpList }
  else if etype = "label_error" then
    { st with
      labelError := st.labelError + 1
      labelErrorList := if st.labelErrorList.length < maxSamplesPerType then
        st.labelErrorList ++ [⟨sid, "label_error", r.cat, elem5 r⟩]
        else st.labelErrorList }
  else
    { st with
      hardFp := st.hardFp + 1
      hardFpList := if st.hardFpList.length < maxSamplesPerType then
        st.hardFpList ++ [⟨sid, "hard_fp", r.cat, elem5 r⟩]
        else st.hardFpList }

/-- Record one false negative (error_analysis.py lines 148-163). -/
def bumpFn (st : CatOut) (sid : String) (gcat : String) : CatOut :=
  { st with
    fn := st.fn + 1
    fnList := if st.fnList.length < maxSamplesPerType then
      st.fnList ++ [⟨sid, "false_negative", gcat, none⟩] else st.fnList }

/-- Classify one prediction against the GT boxes of its sample,
returning the error type and the updated matched index set
(error_analysis.py lines 103-124). -/
def classifyPred (gtRows : List BoxRow) (iouT : ℚ) (matched : List ℕ)
    (r : BoxRow) : String × List ℕ :=
  if 0 < gtRows.length then
    let ious := gtRows.map (fun g => iou (rowBox r) (rowBox g))
    let bi := argmaxQ ious
    let bv := ious.getD bi 0
    if iouT ≤ bv ∧ bi ∉ matched then
      if (gtRows.getD bi default).cat = r.cat then ("tp", matched ++ [bi])
      else ("label_error", matched ++ [bi])
    else ("hard_fp", matched)
  else ("hard_fp", matched)

/-- Process one sample of categorize_errors: filter and sort the
predictions by r[4], walk them greedily, then count each unmatched GT
box as a false negative (error_analysis.py lines 77-163). -/
def processSample (iouT confT : ℚ) (st : CatOut) (sid : String)
    (gtRows predRows : List BoxRow) : CatOut :=
  let walked := (sortedPredsCode confT predRows).foldl
    (fun (acc : CatOut × List ℕ) r =>
      let c := classifyPred gtRows iouT acc.2 r
      (bumpPred acc.1 sid c.1 r, c.2))
    (st, [])
  (List.range gtRows.length).foldl
    (fun acc gi => if gi ∈ walked.2 then acc
      else bumpFn acc sid (gtRows.getD gi default).cat)
    walked.1

/-- String comparison modelling the Python sorted() builtin over ids;
compares the underlying character lists, which is exactly the string
order (String.lt_iff_toList_lt). -/
def strLe (a b : String) : Bool := !(decide (b.data < a.data))

/-- sorted(set(gt_by_sample) | set(pred_by_sample)) from
error_analysis.py line 75: the keys of both grouping maps, deduplicated
and sorted ascending. -/
def sortedSampleIds (gts preds : List (String × List BoxRow)) :
    List String :=
  sortLe strLe (list_distinct (gts.map Prod.fst ++ preds.map Prod.fst))

/-- categorize_errors (error_analysis.py lines 30-189), restricted to
the outputs the claims read: totals and the capped per-type sample
lists.  The all-empty early return of line 53 coincides with folding
over no sample ids. -/
def categorizeErrors (iouT confT : ℚ)
    (gts preds : List (String × List BoxRow)) : CatOut :=
  (sortedSampleIds gts preds).foldl
    (fun st sid => processSample iouT confT st sid
      ((gts.lookup sid).getD []) ((preds.lookup sid).getD []))
    catOutInit

-- Worst-image scoring aggregation (triage.py).

/-- One defaultdict update of compute_worst_images (triage.py lines
46-50): bump the error count of the sample of one retained entry and
collect its confidence when present. -/
def updAgg (m : List (String × ℕ × List ℚ)) (s : ErrSample) :
    List (String × ℕ × List ℚ) :=
  match m with
  | [] => [(s.sample_id, 1, s.confidence.toList)]
  | (k, n, cs) :: rest =>
    if k = s.sample_id then (k, n + 1, cs ++ s.confidence.toList) :: rest
    else (k, n, cs) :: updAgg rest s

/-- The entries compute_worst_images iterates: the capped hard_fp,
label_error and false_negative lists, in that order (lines 46-47). -/
def errEntries (out : CatOut) : List ErrSample :=
  out.hardFpList ++ out.labelErrorList ++ out.fnList

/-- Per-sample aggregation of compute_worst_images (lines 41-50). -/
def sampleAgg (out : CatOut) : List (String × ℕ × List ℚ) :=
  (errEntries out).foldl updAgg []

/-- Population variance, the square of np.std (triage.py line 59). -/
def popVar (cs : List ℚ) : ℚ :=
  ((cs.map (fun c => (c - cs.sum / cs.length) ^ 2)).sum) / cs.length

/-- Squared confidence spread: the square of np.std when at least two
confidences were collected, else 0 (triage.py lines 56-61); squared so
the value stays rational. -/
def spreadSq (cs : List ℚ) : ℚ := if 2 ≤ cs.length then popVar cs else 0

/-- Scored entry of compute_worst_images, with the spread squared. -/
structure TriScore where
  sample_id : String
  error_count : ℕ
  spread_sq : ℚ
deriving DecidableEq, Repr

/-- The scored list of compute_worst_images before normalisation,
sorting and truncation (triage.py lines 69-84); those later steps carry
each entry's sample id, error count and spread through unchanged. -/
def worstScored (iouT confT : ℚ)
    (gts preds : List (String × List BoxRow)) : List TriScore :=
  (sampleAgg (categorizeErrors iouT confT gts preds)).map
    (fun e => ⟨e.1, e.2.1, spreadSq e.2.2⟩)

/-- C3: categorize_errors filters and orders predictions by r[4], the
bbox height, not the confidence.  A prediction of confidence 9/10 with
bbox height 1/5 is dropped at confidence threshold 1/2, so its sample
yields no categorised detection at all, while the set of predictions
with effective confidence at least the threshold is exactly that
prediction. -/
theorem categorize_conf_filter_divergence :
    filteredPredsCode (mkRat 1 2)
      [⟨"car", 0, 0, 1, mkRat 1 5, some (mkRat 9 10)⟩] = [] ∧
    ([(⟨"car", 0, 0, 1, mkRat 1 5, some (mkRat 9 10)⟩ : BoxRow)]).filter
      (fun r => decide (mkRat 1 2 ≤ effConf (elem5 r)))
      = [⟨"car", 0, 0, 1, mkRat 1 5, some (mkRat 9 10)⟩] ∧
    categorizeErrors (mkRat 1 2) (mkRat 1 2) []
      [("s1", [⟨"car", 0, 0, 1, mkRat 1 5, some (mkRat 9 10)⟩])]
      = catOutInit := by
  refine ⟨by decide, by decide, by decide⟩

/-- Dict access into the aggregation association list. -/
def aggFind : List (String × ℕ × List ℚ) → String →
    Option (String × ℕ × List ℚ)
  | [], _ => none
  | e :: rest, k => if e.1 = k then some e else aggFind rest k

theorem aggFind_updAgg (m : List (String × ℕ × List ℚ)) (s : ErrSample)
    (k : String) :
    aggFind (updAgg m s) k =
      (if k = s.sample_id then
        (match aggFind m k with
          | some e => some (e.1, e.2.1 + 1, e.2.2 ++ s.confidence.toList)
          | none => some (s.sample_id, 1, s.confidence.toList))
      else aggFind m k) := by
  induction m with
  | nil =>
    by_cases h : k = s.sample_id
    · subst h
      simp [updAgg, aggFind]
    · rw [if_neg h]
      simp [updAgg, aggFind, Ne.symm h]
  | cons e rest ih =>
    obtain ⟨k0, n0, cs0⟩ := e
    rw [updAgg]
    by_cases h0 : k0 = s.sample_id
    · rw [if_pos h0]
      by_cases hk : k = s.sample_id
      · have hk0 : k0 = k := by rw [h0, hk]
        rw [if_pos hk]
        rw [aggFind, if_pos hk0, aggFind, if_pos hk0]
      · have hk0 : ¬ k0 = k := fun hc => hk (hc ▸ h0 : k = s.sample_id)
        rw [if_neg hk]
        rw [aggFind, if_neg hk0, aggFind, if_neg hk0]
    · rw [if_neg h0]
      by_cases hk : k0 = k
      · have hks : ¬ k = s.sample_id := fun hc => h0 (hk.symm ▸ hc)
        rw [if_neg hks]
        rw [aggFind, if_pos hk, aggFind, if_pos hk]
      · rw [aggFind, if_neg hk, aggFind, if_neg hk]
        exact ih

theorem aggFind_foldl_some (l : List ErrSample) :
    ∀ (m : List (String × ℕ × List ℚ)) (k : String) (n : ℕ) (cs : List ℚ),
    aggFind m k = some (k, n, cs) →
    aggFind (l.foldl updAgg m) k =
      some (k, n + l.countP (fun s => s.sample_id == k),
        cs ++ (l.filter (fun s => s.sample_id == k)).filterMap
          ErrSample.confidence) := by
  induction l with
  | nil => intro m k n cs h; simpa using h
  | cons s rest ih =>
    intro m k n cs h
    simp only [List.foldl_cons]
    by_cases hk : k = s.sample_id
    · have hpred : (s.sample_id == k) = true := beq_iff_eq.mpr hk.symm
      have h2 : aggFind (updAgg m s) k
          = some (k, n + 1, cs ++ s.confidence.toList) := by
        rw [aggFind_updAgg, if_pos hk, h]
      have h3 := ih (updAgg m s) k (n + 1) (cs ++ s.confidence.toList) h2
      rw [h3]
      have hnat : n + 1 + rest.countP (fun s' => s'.sample_id == k)
          = n + (s :: rest).countP (fun s' => s'.sample_id == k) := by
        rw [List.countP_cons, hpred, if_pos rfl]
        omega
      have hlist : (cs ++ s.confidence.toList)
            ++ (rest.filter (fun s' => s'.sample_id == k)).filterMap
              ErrSample.confidence
          = cs ++ ((s :: rest).filter (fun s' => s'.sample_id == k)).filterMap
              ErrSample.confidence := by
        rw [List.filter_cons, if_pos hpred]
        cases hcf : s.confidence <;>
          simp [List.filterMap_cons, hcf, Option.toList]
      rw [hnat, hlist]
    · have hpred : (s.sample_id == k) = false :=
        beq_eq_false_iff_ne.mpr (fun hc => hk hc.symm)
      have h2 : aggFind (updAgg m s) k = some (k, n, cs) := by
        rw [aggFind_updAgg, if_neg hk]; exact h
      rw [ih (updAgg m s) k n cs h2, List.countP_cons, List.filter_cons, hpred]
      simp

theorem aggFind_foldl_none (l : List ErrSample) :
    ∀ (m : List (String × ℕ × List ℚ)) (k : String),
    aggFind m k = none →
    aggFind (l.foldl updAgg m) k =
      (if l.countP (fun s => s.sample_id == k) = 0 then none
       else some (k, l.countP (fun s => s.sample_id == k),
        (l.filter (fun s => s.sample_id == k)).filterMap
          ErrSample.confidence)) := by
  induction l with
  | nil => intro m k h; simpa using h
  | cons s rest ih =>
    intro m k h
    simp only [List.foldl_cons]
    by_cases hk : k = s.sample_id
    · have hpred : (s.sample_id == k) = true := beq_iff_eq.mpr hk.symm
      have h2 : aggFind (updAgg m s) k
          = some (k, 1, s.confidence.toList) := by
        rw [aggFind_updAgg, if_pos hk, h, hk]
      have h3 := aggFind_foldl_some rest (updAgg m s) k 1 s.confidence.toList h2
      rw [h3, List.countP_cons, List.filter_cons, hpred, if_pos rfl]
      rw [if_neg (by omega)]
      have hlist : s.confidence.toList
            ++ (rest.filter (fun s' => s'.sample_id == k)).filterMap
              ErrSample.confidence
          = (s :: rest.filter (fun s' => s'.sample_id == k)).filterMap
              ErrSample.confidence := by
        cases hcf : s.confidence <;>
          simp [List.filterMap_cons, hcf, Option.toList]
      rw [if_pos rfl, ← hlist]
      have hn2 : 1 + rest.countP (fun s' => s'.sample_id == k)
          = rest.countP (fun s' => s'.sample_id == k) + 1 := by omega
      rw [hn2]
    · have hpred : (s.sample_id == k) = false :=
        beq_eq_false_iff_ne.mpr (fun hc => hk hc.symm)
      have h2 : aggFind (updAgg m s) k = none := by
        rw [aggFind_updAgg, if_neg hk]; exact h
      rw [ih (updAgg m s) k h2, List.countP_cons, List.filter_cons, hpred]
      simp

theorem aggFind_none_iff (m : List (String × ℕ × List ℚ)) (k : String) :
    aggFind m k = none ↔ ∀ e ∈ m, Prod.fst e ≠ k := by
  induction m with
  | nil => simp [aggFind]
  | cons e rest ih =>
    rw [aggFind]
    by_cases h : e.1 = k
    · rw [if_pos h]
      constructor
      · intro hc; exact Option.noConfusion hc
      · intro hall; exact absurd h (hall e (List.mem_cons_self e rest))
    · rw [if_neg h, ih]
      constructor
      · intro hall e' he'
        rcases List.mem_cons.mp he' with rfl | he''
        · exact h
        · exact hall e' he''
      · intro hall e' he'
        exact hall e' (List.mem_cons_of_mem _ he')

theorem aggFind_some_mem {m : List (String × ℕ × List ℚ)} {k : String}
    {e : String × ℕ × List ℚ} (h : aggFind m k = some e) :
    e ∈ m ∧ Prod.fst e = k := by
  induction m with
  | nil => exact Option.noConfusion h
  | cons e0 rest ih =>
    rw [aggFind] at h
    by_cases h0 : e0.1 = k
    · rw [if_pos h0] at h
      cases h
      exact ⟨List.mem_cons_self _ _, h0⟩
    · rw [if_neg h0] at h
      obtain ⟨h1, h2⟩ := ih h
      exact ⟨List.mem_cons_of_mem _ h1, h2⟩

theorem updAgg_keys (m : List (String × ℕ × List ℚ)) (s : ErrSample) :
    (updAgg m s).map Prod.fst =
      (if aggFind m s.sample_id = none then
        m.map Prod.fst ++ [s.sample_id]
       else m.map Prod.fst) := by
  induction m with
  | nil => simp [updAgg, aggFind]
  | cons e rest ih =>
    obtain ⟨k0, n0, cs0⟩ := e
    rw [updAgg, aggFind]
    by_cases h0 : k0 = s.sample_id
    · rw [if_pos h0]
      have hcond : ¬ ((if (k0, n0, cs0).1 = s.sample_id
          then some (k0, n0, cs0) else aggFind rest s.sample_id) = none) := by
        simp only [if_pos h0]
        exact fun hc => Option.noConfusion hc
      rw [if_neg hcond]
      simp
    · have hred : (if (k0, n0, cs0).1 = s.sample_id
          then some (k0, n0, cs0) else aggFind rest s.sample_id)
          = aggFind rest s.sample_id := by
        simp only [if_neg h0]
      rw [if_neg h0, hred, List.map_cons, List.map_cons, ih]
      by_cases hrest : aggFind rest s.sample_id = none
      · rw [if_pos hrest, if_pos hrest]
        simp
      · rw [if_neg hrest, if_neg hrest]

theorem foldl_updAgg_keys_nodup (l : List ErrSample) :
    ∀ m : List (String × ℕ × List ℚ),
    (m.map Prod.fst).Nodup → (((l.foldl updAgg m)).map Prod.fst).Nodup := by
  induction l with
  | nil => intro m h; exact h
  | cons s rest ih =>
    intro m h
    simp only [List.foldl_cons]
    apply ih
    rw [updAgg_keys]
    by_cases hf : aggFind m s.sample_id = none
    · rw [if_pos hf]
      have hnm : s.sample_id ∉ m.map Prod.fst := by
        intro hc
        obtain ⟨e, he, hek⟩ := List.mem_map.mp hc
        exact (aggFind_none_iff m s.sample_id).mp hf e he hek
      simp [List.nodup_append, h, hnm]
    · rw [if_neg hf]
      exact h

theorem aggFind_of_mem (m : List (String × ℕ × List ℚ))
    (hn : (m.map Prod.fst).Nodup) (e : String × ℕ × List ℚ) (he : e ∈ m) :
    aggFind m (Prod.fst e) = some e := by
  induction m with
  | nil => cases he
  | cons e0 rest ih =>
    rcases List.mem_cons.mp he with rfl | he'
    · rw [aggFind, if_pos rfl]
    · have hmap : (e0.1 :: rest.map Prod.fst).Nodup := by simpa using hn
      have hn' : (rest.map Prod.fst).Nodup := (List.nodup_cons.mp hmap).2
      have hne : ¬ e0.1 = e.1 := by
        intro hc
        exact (List.nodup_cons.mp hmap).1
          (hc ▸ List.mem_map_of_mem Prod.fst he')
      rw [aggFind, if_neg hne]
      exact ih hn' he'

/-- C5 amended: every entry of the worst-image scoring carries as error
count the number of entries of its sample retained in the capped
per-type sample lists of the categoriser, and as squared spread the
population variance of the confidences attached to those retained
entries (0 with fewer than two); and a sample has an entry exactly when
at least one of its errors was retained in the capped lists. -/
theorem worst_images_amended (iouT confT : ℚ)
    (gts preds : List (String × List BoxRow)) :
    (∀ t ∈ worstScored iouT confT gts preds,
      t.error_count = (errEntries (categorizeErrors iouT confT gts preds)).countP
        (fun s => s.sample_id == t.sample_id) ∧
      t.spread_sq = spreadSq
        (((errEntries (categorizeErrors iouT confT gts preds)).filter
          (fun s => s.sample_id == t.sample_id)).filterMap
          ErrSample.confidence)) ∧
    (∀ sid : String,
      (∃ t ∈ worstScored iouT confT gts preds, t.sample_id = sid) ↔
      0 < (errEntries (categorizeErrors iouT confT gts preds)).countP
        (fun s => s.sample_id == sid)) := by
  have hn : ((sampleAgg (categorizeErrors iouT confT gts preds)).map
      Prod.fst).Nodup :=
    foldl_updAgg_keys_nodup (errEntries (categorizeErrors iouT confT gts preds))
      [] (by simp)
  constructor
  · intro t ht
    obtain ⟨e, he, hte⟩ := List.mem_map.mp ht
    have hfe : aggFind (sampleAgg (categorizeErrors iouT confT gts preds))
        (Prod.fst e) = some e :=
      aggFind_of_mem _ hn e he
    rw [sampleAgg, aggFind_foldl_none
      (errEntries (categorizeErrors iouT confT gts preds)) [] (Prod.fst e)
      rfl] at hfe
    by_cases hc : (errEntries (categorizeErrors iouT confT gts preds)).countP
        (fun s => s.sample_id == Prod.fst e) = 0
    · rw [if_pos hc] at hfe
      exact Option.noConfusion hfe
    · rw [if_neg hc] at hfe
      have he2 : e = (Prod.fst e,
          (errEntries (categorizeErrors iouT confT gts preds)).countP
            (fun s => s.sample_id == Prod.fst e),
          ((errEntries (categorizeErrors iouT confT gts preds)).filter
            (fun s => s.sample_id == Prod.fst e)).filterMap
            ErrSample.confidence) := by
        exact (Option.some.inj hfe).symm
      rw [← hte]
      constructor
      · show e.2.1 = _
        rw [show e.2.1 = (e.2).1 from rfl]
        conv_lhs => rw [he2]
      · show spreadSq e.2.2 = _
        conv_lhs => rw [he2]
  · intro sid
    constructor
    · rintro ⟨t, ht, hts⟩
      obtain ⟨e, he, hte⟩ := List.mem_map.mp ht
      have hkey : Prod.fst e = sid := by rw [← hts, ← hte]
      have hfe : aggFind (sampleAgg (categorizeErrors iouT confT gts preds))
          (Prod.fst e) = some e :=
        aggFind_of_mem _ hn e he
      rw [sampleAgg, aggFind_foldl_none
        (errEntries (categorizeErrors iouT confT gts preds)) [] (Prod.fst e)
        rfl] at hfe
      by_cases hc : (errEntries (categorizeErrors iouT confT gts preds)).countP
          (fun s => s.sample_id == Prod.fst e) = 0
      · rw [if_pos hc] at hfe
        exact Option.noConfusion hfe
      · rw [hkey] at hc
        omega
    · intro hpos
      have hfold := aggFind_foldl_none
        (errEntries (categorizeErrors iouT confT gts preds)) [] sid rfl
      rw [if_neg (by omega)] at hfold
      have hfe : aggFind (sampleAgg (categorizeErrors iouT confT gts preds)) sid
          = some (sid,
            (errEntries (categorizeErrors iouT confT gts preds)).countP
              (fun s => s.sample_id == sid),
            ((errEntries (categorizeErrors iouT confT gts preds)).filter
              (fun s => s.sample_id == sid)).filterMap ErrSample.confidence) := by
        rw [sampleAgg]
        exact hfold
      obtain ⟨hmem, h_⟩ := aggFind_some_mem hfe
      exact ⟨_, List.mem_map_of_mem
        (fun e => (⟨e.1, e.2.1, spreadSq e.2.2⟩ : TriScore)) hmem, rfl⟩

/-- 51 samples, each holding one prediction and no ground truth: every
prediction is categorised hard_fp, one more than the per-type cap. -/
def capCexPreds : List (String × List BoxRow) :=
  (List.range 51).map (fun i =>
    ("a" ++ toString (10 + i), [⟨"car", 0, 0, 1, 1, some 1⟩]))

/-- The uncapped error total of one sample under the categoriser: the
counter fields of categorize_errors are bumped for every detection,
independent of the sample-list cap. -/
def sampleErrTotal (iouT confT : ℚ) (gtRows predRows : List BoxRow) : ℕ :=
  (processSample iouT confT catOutInit "x" gtRows predRows).hardFp
    + (processSample iouT confT catOutInit "x" gtRows predRows).labelError
    + (processSample iouT confT catOutInit "x" gtRows predRows).fn

set_option maxRecDepth 4000 in
set_option maxHeartbeats 1000000 in
/-- C5 counterexample: with 51 hard false positives spread over 51
samples, the 50-entry cap of the per-type sample lists drops the error
of the last sample in id order, so the worst-image scoring has no entry
for sample a60 although that sample has one hard-FP detection. -/
theorem worst_images_cap_cex :
    ((worstScored 0 0 [] capCexPreds).find?
      (fun t => t.sample_id == "a60")) = none ∧
    sampleErrTotal 0 0 [] [⟨"car", 0, 0, 1, 1, some 1⟩] = 1 ∧
    ("a60", [⟨"car", 0, 0, 1, 1, some 1⟩]) ∈ capCexPreds := by
  refine ⟨by decide, by decide, by decide⟩

/-- Witness for the amended C5 theorem at a one-sample state with one
hard false positive. -/
theorem worst_images_amended_witness :
    (⟨"s1", 1, 0⟩ : TriScore) ∈ worstScored 0 0 []
      [("s1", [⟨"car", 0, 0, 1, 1, some 1⟩])] ∧
    (⟨"s1", 1, 0⟩ : TriScore).error_count
      = (errEntries (categorizeErrors 0 0 []
          [("s1", [⟨"car", 0, 0, 1, 1, some 1⟩])])).countP
        (fun s => s.sample_id == (⟨"s1", 1, 0⟩ : TriScore).sample_id) :=
  ⟨by decide,
    ((worst_images_amended 0 0 [] [("s1", [⟨"car", 0, 0, 1, 1, some 1⟩])]).1
      ⟨"s1", 1, 0⟩ (by decide)).1⟩

-- ---------------------------------------------------------------------------
-- Near-duplicate detection (src/app/services/similarity_service.py:
-- _find lines 32-37, _union lines 40-44, find_near_duplicates lines
-- 160-306).  The parent dict is an association list; the vector index
-- is external, so the embedding takes the merged (self, neighbour)
-- pairs and the scanned sample ids as inputs.
-- ---------------------------------------------------------------------------

/-- parent.get(x, x): association-list read with default x. -/
def pget (p : List (String × String)) (x : String) : String :=
  (p.lookup x).getD x

/-- parent[x] = v: overwrite the existing binding or append a new one. -/
def pset : List (String × String) → String → String → List (String × String)
  | [], k, v => [(k, v)]
  | e :: rest, k, v =>
    if e.1 == k then (k, v) :: rest else e :: pset rest k v

/-- The while loop of _find with path compression (lines 32-37); fuel
bounds the pointer chase, which in the source is acyclic and no longer
than the map. -/
def findLoop : ℕ → List (String × String) → String →
    String × List (String × String)
  | 0, p, x => (x, p)
  | fuel + 1, p, x =>
    if pget p x == x then (x, p)
    else
      let px := pget p x
      let gp := pget p px
      let p2 := pset p x gp
      findLoop fuel p2 gp

/-- _find (lines 32-37). -/
def ufFind (p : List (String × String)) (x : String) :
    String × List (String × String) :=
  findLoop (p.length + 1) p x

/-- _union (lines 40-44): parent[root a] = root b when the roots differ;
note the root of b never becomes a key. -/
def ufUnion (p : List (String × String)) (a b : String) :
    List (String × String) :=
  let fa := ufFind p a
  let fb := ufFind fa.2 b
  if fa.1 == fb.1 then fb.2 else pset fb.2 fa.1 fb.1

/-- groups_map[root].append(sid) (lines 268-272). -/
def appendGroup : List (String × List String) → String → String →
    List (String × List String)
  | [], root, sid => [(root, [sid])]
  | e :: rest, root, sid =>
    if e.1 == root then (e.1, e.2 ++ [sid]) :: rest
    else e :: appendGroup rest root sid

/-- find_near_duplicates after the scan: union-find merge of all
(self, neighbour) pairs (lines 241-244), grouping of the ids that are
keys of the parent map (lines 268-272), size filter, ascending member
sort and stable size-descending group sort (lines 274-280).  Each
output group is the member list with its size. -/
def nearDupGroups (pairs : List (String × String)) (allIds : List String) :
    List (List String × ℕ) :=
  let parent := pairs.foldl (fun p ab => ufUnion p ab.1 ab.2) []
  let grouped := allIds.foldl
    (fun (acc : List (String × List String) × List (String × String)) sid =>
      if (acc.2.lookup sid).isSome then
        let fr := ufFind acc.2 sid
        (appendGroup acc.1 fr.1 sid, fr.2)
      else acc)
    ([], parent)
  let groups := (grouped.1.map
    (fun kv => (sortLe strLe kv.2, kv.2.length))).filter
    (fun g => decide (2 ≤ g.2))
  sortLe (fun g1 g2 => decide (g2.2 ≤ g1.2)) groups

/-- C4: after merging the single pair (s1, s2) the two ids share a
union-find root, yet the output holds no group at all: the grouping
phase keeps only ids that are keys of the parent map, and a final root
never becomes a key, so every class loses its root — here the class
{s1, s2} shrinks below the size-2 cutoff and disappears. -/
theorem near_dup_root_dropped :
    (ufFind (ufUnion [] "s1" "s2") "s1").1
      = (ufFind (ufUnion [] "s1" "s2") "s2").1 ∧
    nearDupGroups [("s1", "s2")] ["s1", "s2"] = [] := by
  refine ⟨by decide, by decide⟩

-- ---------------------------------------------------------------------------
-- COCO ingestion orchestration (src/app/services/ingestion.py,
-- ingest_with_progress, lines 71-287; batch builders of
-- src/app/ingestion/coco_parser.py, lines 68-144).
-- ---------------------------------------------------------------------------

/-- One image record of a COCO file (the fields build_image_batches
reads). -/
structure ImgRec where
  id : String
  file_name : String
  width : ℕ
  height : ℕ
deriving DecidableEq, Repr

/-- One annotation record of a COCO file (the fields
build_annotation_batches reads). -/
structure AnnRec where
  id : String
  image_id : String
  category_id : Option ℕ
  bbox : List ℚ
deriving DecidableEq, Repr

/-- A COCO file as the three item streams the parser exposes. -/
structure CocoFile where
  categories : List (ℕ × String)
  images : List ImgRec
  anns : List AnnRec

/-- Fixed-size batching shared by both batch builders (coco_parser.py
lines 96-101 and 139-143): a batch is emitted whenever batch_size
records accumulate, then the remainder. -/
def chunksGo {α : Type} : ℕ → ℕ → List α → List (List α)
  | 0, _, _ => []
  | _, _, [] => []
  | fuel + 1, n, l => l.take n :: chunksGo fuel n (l.drop n)

def chunks {α : Type} (n : ℕ) (l : List α) : List (List α) :=
  chunksGo l.length n l

/-- Progress event of the ingestion stream (IngestionProgress,
ingestion.py lines 29-41; the message text is elided). -/
structure IngProgress where
  stage : String
  current : ℕ
  total : Option ℕ
deriving DecidableEq, Repr

/-- Parameter names of COCOParser.build_annotation_batches
(coco_parser.py lines 103-108): self, file_path, dataset_id,
categories.  There is no split parameter. -/
def buildAnnBatchesParams : List String :=
  ["self", "file_path", "dataset_id", "categories"]

/-- Keyword arguments supplied at the call site of step 3 of
ingest_with_progress (ingestion.py lines 146-148):
build_annotation_batches(Path(annotation_path), dataset_id, categories,
split=split). -/
def annBatchesCallKeywords : List String := ["split"]

/-- Python call binding: a keyword argument that names no parameter of
the callee raises TypeError before the callee body runs. -/
def kwAccepted (params keywords : List String) : Bool :=
  keywords.all (params.contains ·)

/-- Outcome of one ingestion run: the events yielded before any error,
the rows bulk-inserted, and the error that stopped the generator. -/
structure IngOutcome where
  events : List IngProgress
  insertedSamples : ℕ
  insertedAnns : ℕ
  error : Option String
deriving DecidableEq, Repr

/-- Step 2 events (ingestion.py lines 128-143): one parsing_images event
per inserted image batch, carrying the cumulative count. -/
def imageEvents : List (List ImgRec) → ℕ → List IngProgress
  | [], _ => []
  | b :: bs, c =>
    ⟨"parsing_images", c + b.length, none⟩ :: imageEvents bs (c + b.length)

/-- Step 3 events (ingestion.py lines 145-158): one parsing_annotations
event per inserted annotation batch. -/
def annEvents : List (List AnnRec) → ℕ → List IngProgress
  | [], _ => []
  | b :: bs, c =>
    ⟨"parsing_annotations", c + b.length, none⟩ :: annEvents bs (c + b.length)

/-- ingest_with_progress over a COCO file (ingestion.py lines 71-287):
the categories event, one bulk insert and one event per image batch,
then the call build_annotation_batches(..., split=split).  The callee
has no split parameter, so the call raises TypeError and the generator
stops; the first branch models the remaining steps (annotation batches,
thumbnails — an external collaborator, count elided as 0 — and the
final complete event) and is unreachable. -/
def ingestWithProgress (file : CocoFile) (batchSize : ℕ) : IngOutcome :=
  let catEvent : IngProgress :=
    ⟨"categories", file.categories.length, some file.categories.length⟩
  let ievents := imageEvents (chunks batchSize file.images) 0
  if kwAccepted buildAnnBatchesParams annBatchesCallKeywords then
    let aevents := annEvents (chunks batchSize file.anns) 0
    { events := catEvent :: ievents ++ aevents
        ++ [⟨"thumbnails", 0, some (min 500 file.images.length)⟩,
            ⟨"complete", file.images.length, some file.images.length⟩]
      insertedSamples := file.images.length
      insertedAnns := file.anns.length
      error := none }
  else
    { events := catEvent :: ievents
      insertedSamples := file.images.length
      insertedAnns := 0
      error := some "TypeError: unexpected keyword argument split" }

theorem imageEvents_stage (bs : List (List ImgRec)) :
    ∀ (c : ℕ), ∀ e ∈ imageEvents bs c, e.stage = "parsing_images" := by
  induction bs with
  | nil => intro c e he; cases he
  | cons b rest ih =>
    intro c e he
    rcases List.mem_cons.mp he with rfl | he'
    · rfl
    · exact ih _ e he'

/-- C1: every COCO ingestion run raises TypeError when it reaches the
annotation step — the call passes split= to build_annotation_batches,
which has no such parameter.  No annotation batch is inserted and no
parsing_annotations or complete event is ever emitted. -/
theorem ingest_annotations_kw_error (file : CocoFile) :
    (ingestWithProgress file 1000).error
      = some "TypeError: unexpected keyword argument split" ∧
    (ingestWithProgress file 1000).insertedAnns = 0 ∧
    ∀ e ∈ (ingestWithProgress file 1000).events,
      e.stage ≠ "parsing_annotations" ∧ e.stage ≠ "complete" := by
  have hkw : kwAccepted buildAnnBatchesParams annBatchesCallKeywords
      = false := by decide
  rw [ingestWithProgress]
  simp only [hkw, Bool.false_eq_true, if_false]
  refine ⟨trivial, trivial, ?_⟩
  intro e he
  rcases List.mem_cons.mp he with rfl | he'
  · exact ⟨show "categories" ≠ "parsing_annotations" by decide,
      show "categories" ≠ "complete" by decide⟩
  · have hst := imageEvents_stage (chunks 1000 file.images) 0 e he'
    rw [hst]
    exact ⟨by decide, by decide⟩

-- ---------------------------------------------------------------------------
-- GET /samples (src/app/routers/samples.py, list_samples, lines 31-119)
-- over the filter builder (src/app/services/filter_builder.py, lines
-- 11-109).
-- ---------------------------------------------------------------------------

/-- FilterResult (filter_builder.py lines 11-18). -/
structure FilterResult where
  where_clause : String
  params : List String
  join_clause : String
  order_clause : String
deriving DecidableEq, Repr

/-- SampleFilterBuilder state (filter_builder.py lines 44-47). -/
structure SFBuilder where
  conditions : List String
  params : List String
  joins : List String
deriving DecidableEq, Repr

def SFBuilder.init : SFBuilder := ⟨[], [], []⟩

/-- SORTABLE_COLUMNS (filter_builder.py line 42). -/
def sortableColumns : List String := ["id", "file_name", "width", "height", "split"]

/-- add_dataset (lines 49-53). -/
def SFBuilder.add_dataset (b : SFBuilder) (datasetId : String) : SFBuilder :=
  { b with
    conditions := b.conditions ++ ["s.dataset_id = ?"]
    params := b.params ++ [datasetId] }

/-- add_split (lines 55-60). -/
def SFBuilder.add_split (b : SFBuilder) (split : Option String) : SFBuilder :=
  match split with
  | none => b
  | some s =>
    { b with
      conditions := b.conditions ++ ["s.split = ?"]
      params := b.params ++ [s] }

/-- add_category (lines 62-71). -/
def SFBuilder.add_category (b : SFBuilder) (category : Option String) :
    SFBuilder :=
  match category with
  | none => b
  | some c =>
    { b with
      joins := b.joins ++
        ["JOIN annotations a ON s.id = a.sample_id AND a.dataset_id = s.dataset_id"]
      conditions := b.conditions ++ ["a.category_name = ?"]
      params := b.params ++ [c] }

/-- add_search (lines 73-78). -/
def SFBuilder.add_search (b : SFBuilder) (search : Option String) : SFBuilder :=
  match search with
  | none => b
  | some s =>
    if s.trim = "" then b
    else
      { b with
        conditions := b.conditions ++ ["s.file_name ILIKE ?"]
        params := b.params ++ ["%" ++ s.trim ++ "%"] }

/-- add_tags (lines 80-86): one list_contains condition per tag. -/
def SFBuilder.add_tags (b : SFBuilder) (tags : Option (List String)) :
    SFBuilder :=
  match tags with
  | none => b
  | some ts =>
    if ts = [] then b
    else ts.foldl (fun b' tag =>
      { b' with
        conditions := b'.conditions ++ ["list_contains(s.tags, ?)"]
        params := b'.params ++ [tag] }) b

/-- build_order (lines 88-95). -/
def SFBuilder.build_order (sortBy : Option String) (sortDir : String) :
    String :=
  match sortBy with
  | some s =>
    if sortableColumns.contains s then
      "ORDER BY s." ++ s ++ (if sortDir = "desc" then " DESC" else " ASC")
    else "ORDER BY s.id ASC"
  | none => "ORDER BY s.id ASC"

/-- build (lines 97-109). -/
def SFBuilder.build (b : SFBuilder) (sortBy : Option String)
    (sortDir : String) : FilterResult :=
  { where_clause :=
      if b.conditions = [] then "TRUE"
      else String.intercalate " AND " b.conditions
    params := b.params
    join_clause := String.intercalate " " b.joins
    order_clause := SFBuilder.build_order sortBy sortDir }

/-- The method names class SampleFilterBuilder defines
(filter_builder.py lines 21-109). -/
def sampleFilterBuilderMethods : List String :=
  ["add_dataset", "add_split", "add_category", "add_search", "add_tags",
   "build_order", "build"]

/-- Comma-separated query parsing of list_samples (samples.py lines
48-60): an absent or empty parameter gives None (Python truthiness),
otherwise the trimmed non-empty segments. -/
def parseCsv (s : Option String) : Option (List String) :=
  match s with
  | none => none
  | some str =>
    if str = "" then none
    else some (((str.splitOn ",").map String.trim).filter (fun x => x ≠ ""))

/-- Outcome of a request handler. -/
inductive HttpResult (α : Type) where
  | ok : α → HttpResult α
  | clientError : ℕ → HttpResult α
  | internalError : HttpResult α
deriving DecidableEq

/-- GET /samples (samples.py lines 31-119): parse the comma lists, apply
the 5000-id cap, then run the builder chain, whose next step looks up
the attribute add_sample_ids on the builder; SampleFilterBuilder defines
no such method, so Python raises AttributeError, surfaced as an
internal error.  The success branch holds the built filter and is
unreachable. -/
def listSamples (datasetId : String)
    (category split search tags sample_ids sortBy : Option String)
    (sortDir : String) : HttpResult FilterResult :=
  let tagList := parseCsv tags
  let sampleIdList := parseCsv sample_ids
  if (match sampleIdList with
      | some l => decide (0 < l.length) && decide (5000 < l.length)
      | none => false) then
    .clientError 400
  else
    let b := ((((SFBuilder.init.add_dataset datasetId).add_split
      split).add_category category).add_search search).add_tags tagList
    if sampleFilterBuilderMethods.contains "add_sample_ids" then
      .ok (b.build sortBy sortDir)
    else .internalError

/-- C2: every GET /samples request whose sample_ids list is within the
5000 cap (or absent) reaches the attribute lookup of add_sample_ids,
which SampleFilterBuilder does not define, and ends in an internal
error; the paginated-response branch is unreachable. -/
theorem list_samples_internal_error (datasetId : String)
    (category split search tags sample_ids sortBy : Option String)
    (sortDir : String)
    (hcap : ∀ l, parseCsv sample_ids = some l → l.length ≤ 5000) :
    listSamples datasetId category split search tags sample_ids sortBy sortDir
      = .internalError := by
  rw [listSamples]
  have hmethod : sampleFilterBuilderMethods.contains "add_sample_ids"
      = false := by decide
  have hno : (match parseCsv sample_ids with
      | some l => decide (0 < l.length) && decide (5000 < l.length)
      | none => false) = false := by
    cases hp : parseCsv sample_ids with
    | none => rfl
    | some l =>
      have hle := hcap l hp
      simp only [Bool.and_eq_false_iff]
      right
      simpa using (by omega : ¬ 5000 < l.length)
  simp only [hno, Bool.false_eq_true, if_false, hmethod]

/-- Witness: list_samples_internal_error at a request without the
sample_ids parameter. -/
theorem list_samples_internal_error_witness :
    (∀ l, parseCsv none = some l → l.length ≤ 5000) ∧
    listSamples "d1" none none none none none none "asc"
      = .internalError :=
  ⟨fun _ hl => Option.noConfusion hl,
    list_samples_internal_error "d1" none none none none none none "asc"
      (fun _ hl => Option.noConfusion hl)⟩

-- ---------------------------------------------------------------------------
-- DELETE /datasets/{id} (src/app/routers/datasets.py lines 291-338) over
-- the schema of src/app/repositories/duckdb_repo.py (which includes an
-- annotation_triage table keyed by dataset_id).
-- ---------------------------------------------------------------------------

/-- Row of the annotation_triage table (duckdb_repo.py schema). -/
structure AnnTriageRow where
  annotation_id : String
  dataset_id : String
  sample_id : String
  label : String
deriving DecidableEq, Repr

/-- Generic row carrying a dataset_id, standing in for rows of
embeddings, saved_views, annotations, samples and categories. -/
structure DRow where
  dataset_id : String
  payload : String
deriving DecidableEq, Repr

/-- The DuckDB tables touched (or not) by delete_dataset. -/
structure DbState where
  datasets : List String
  samples : List DRow
  annotations_tbl : List DRow
  categories : List DRow
  embeddings : List DRow
  saved_views : List DRow
  annotation_triage : List AnnTriageRow
deriving DecidableEq, Repr

/-- delete_dataset (datasets.py lines 291-324): 404 if the dataset id is
absent, otherwise DELETE on embeddings, saved_views, annotations,
samples, categories and datasets for that dataset_id — and on no other
table. -/
def deleteDataset (st : DbState) (datasetId : String) :
    HttpResult DbState :=
  if st.datasets.contains datasetId then
    .ok { st with
      embeddings := st.embeddings.filter (fun r => r.dataset_id ≠ datasetId)
      saved_views := st.saved_views.filter (fun r => r.dataset_id ≠ datasetId)
      annotations_tbl :=
        st.annotations_tbl.filter (fun r => r.dataset_id ≠ datasetId)
      samples := st.samples.filter (fun r => r.dataset_id ≠ datasetId)
      categories := st.categories.filter (fun r => r.dataset_id ≠ datasetId)
      datasets := st.datasets.filter (fun d => d ≠ datasetId) }
  else .clientError 404

/-- C6: deleting an existing dataset leaves the annotation_triage table
completely untouched — every triage override row of the deleted
dataset survives — even though every other per-dataset table is
cleared of that dataset_id. -/
theorem delete_dataset_keeps_ann_triage (st : DbState) (datasetId : String)
    (st2 : DbState) (hdel : deleteDataset st datasetId = .ok st2) :
    st2.annotation_triage = st.annotation_triage ∧
    (∀ r ∈ st.annotation_triage, r.dataset_id = datasetId →
      r ∈ st2.annotation_triage) ∧
    (∀ r ∈ st2.samples, r.dataset_id ≠ datasetId) ∧
    (∀ r ∈ st2.annotations_tbl, r.dataset_id ≠ datasetId) ∧
    (∀ r ∈ st2.categories, r.dataset_id ≠ datasetId) ∧
    (∀ r ∈ st2.embeddings, r.dataset_id ≠ datasetId) ∧
    (∀ r ∈ st2.saved_views, r.dataset_id ≠ datasetId) ∧
    datasetId ∉ st2.datasets := by
  rw [deleteDataset] at hdel
  by_cases hmem : st.datasets.contains datasetId
  · rw [if_pos hmem] at hdel
    cases hdel
    refine ⟨rfl, fun r _ _ => by assumption, ?_, ?_, ?_, ?_, ?_, ?_⟩
    · intro r hr
      simpa using (List.mem_filter.mp hr).2
    · intro r hr
      simpa using (List.mem_filter.mp hr).2
    · intro r hr
      simpa using (List.mem_filter.mp hr).2
    · intro r hr
      simpa using (List.mem_filter.mp hr).2
    · intro r hr
      simpa using (List.mem_filter.mp hr).2
    · intro hd
      have := (List.mem_filter.mp hd).2
      simp at this
  · rw [if_neg hmem] at hdel
    exact absurd hdel (by simp)

/-- Witness: delete_dataset_keeps_ann_triage at a concrete state holding
one dataset with one sample, one annotation and one triage override. -/
theorem delete_dataset_keeps_ann_triage_witness :
    (deleteDataset
      ⟨["d1"], [⟨"d1", "s1"⟩], [⟨"d1", "a1"⟩], [⟨"d1", "car"⟩], [], [],
        [⟨"a1", "d1", "s1", "fp"⟩]⟩ "d1"
      = .ok ⟨[], [], [], [], [], [], [⟨"a1", "d1", "s1", "fp"⟩]⟩) ∧
    (⟨[], [], [], [], [], [], [⟨"a1", "d1", "s1", "fp"⟩]⟩ :
        DbState).annotation_triage = [⟨"a1", "d1", "s1", "fp"⟩] :=
  ⟨rfl, ((delete_dataset_keeps_ann_triage
      ⟨["d1"], [⟨"d1", "s1"⟩], [⟨"d1", "a1"⟩], [⟨"d1", "car"⟩], [], [],
        [⟨"a1", "d1", "s1", "fp"⟩]⟩ "d1"
      ⟨[], [], [], [], [], [], [⟨"a1", "d1", "s1", "fp"⟩]⟩ rfl).1).trans rfl⟩
